import Mathlib

/-!
# ANNT fully connected layer: forward pass, backward pass, weight update

A shallow embedding of `src/lib/Neuro/Layers/XFullyConnectedLayer.cpp`.

Modelling conventions.

* `float_t` is a type parameter carrying a commutative ring structure: arithmetic is exact,
  rounding is not modelled.
* `fvector_t` (`std::vector<float_t>`) is a list.  Reading or writing past the end of a vector is
  undefined behaviour in the source; here every access is checked and such a run yields `none`.
* `vector<fvector_t*>` is a list of vectors: the buffers a call receives are distinct objects
  (no two pointers alias).
* `size_t` counters that are not bounded by a loop condition (`weightIndex`,
  `weightIndexStart`) wrap modulo `2 ^ 64`.  A loop counter `k` of `for (k = 0; k < n; k++)`
  never exceeds the `size_t` value `n`, so it does not wrap.
* A member function takes the layer and returns the layer it leaves behind, next to the buffers
  it wrote.
-/

namespace ANNT.Neuro

/-- Values of `size_t` wrap around modulo `2 ^ 64`. -/
def wrap (n : Nat) : Nat := n % 2 ^ 64

/-- A vector of numbers, `std::vector<float_t>`. -/
abbrev fvector_t (float_t : Type) : Type := List float_t

/-- Assignment `v[i] = x`; out of range it is undefined behaviour. -/
def store {α : Type} (v : List α) (i : Nat) (x : α) : Option (List α) :=
  if i < v.length then some (v.set i x) else none

/-- The counted loop `for ( ; i < n; i++ ) s = body i s`, stopping at the first fault. -/
def forLoop {σ : Type} (n : Nat) (body : Nat → σ → Option σ) (i : Nat) (s : σ) : Option σ :=
  if i < n then (body i s).bind (forLoop n body (i + 1)) else some s
termination_by n - i

/-- The data members of `XFullyConnectedLayer` (the two counts come from `ITrainableLayer`). -/
structure XFullyConnectedLayer (float_t : Type) where
  /-- Number of inputs of the layer -/
  mInputsCount : Nat
  /-- Number of outputs of the layer -/
  mOutputsCount : Nat
  /-- Flattened weight matrix -/
  mWeights : fvector_t float_t
  /-- Bias values -/
  mBiases : fvector_t float_t

section Code

variable {float_t : Type} [CommRing float_t]

/-! ### ForwardCompute (source lines 51-72) -/

/-- Lines 64-67, one iteration on `(sum, weightIndex)`:
`sum += input[inputIndex] * mWeights[weightIndex]`, then `weightIndex++`. -/
def forwardInputStep (l : XFullyConnectedLayer float_t) (input : fvector_t float_t)
    (inputIndex : Nat) (st : float_t × Nat) : Option (float_t × Nat) := do
  let x ← input[inputIndex]?
  let w ← l.mWeights[st.2]?
  pure (st.1 + x * w, wrap (st.2 + 1))

/-- Lines 60-70, one iteration on `(output, weightIndex)`: the inner loop from `sum = 0`, then
`output[otputIndex] = sum + mBiases[otputIndex]`. -/
def forwardOutputStep (l : XFullyConnectedLayer float_t) (input : fvector_t float_t)
    (otputIndex : Nat) (st : fvector_t float_t × Nat) : Option (fvector_t float_t × Nat) := do
  let r ← forLoop l.mInputsCount (forwardInputStep l input) 0 (0, st.2)
  let b ← l.mBiases[otputIndex]?
  let output ← store st.1 otputIndex (r.1 + b)
  pure (output, r.2)

/-- Lines 54-71, one iteration on the output buffers: sample `i`, with `weightIndex = 0`. -/
def forwardSampleStep (l : XFullyConnectedLayer float_t) (inputs : List (fvector_t float_t))
    (i : Nat) (outputs : List (fvector_t float_t)) : Option (List (fvector_t float_t)) := do
  let input ← inputs[i]?
  let output ← outputs[i]?
  let r ← forLoop l.mOutputsCount (forwardOutputStep l input) 0 (output, 0)
  pure (outputs.set i r.1)

/-- The member function `ForwardCompute`: the layer afterwards and the output buffers. -/
def ForwardCompute (l : XFullyConnectedLayer float_t) (inputs outputs : List (fvector_t float_t)) :
    Option (XFullyConnectedLayer float_t × List (fvector_t float_t)) := do
  let outputs ← forLoop inputs.length (forwardSampleStep l inputs) 0 outputs
  pure (l, outputs)

/-! ### BackwardCompute (source lines 75-127) -/

/-- Lines 93-96, one iteration on `(sum, weightIndex)`:
`sum += delta[otputIndex] * mWeights[weightIndex]`, then `weightIndex += mInputsCount`. -/
def backwardDeltaStep (l : XFullyConnectedLayer float_t) (delta : fvector_t float_t)
    (otputIndex : Nat) (st : float_t × Nat) : Option (float_t × Nat) := do
  let d ← delta[otputIndex]?
  let w ← l.mWeights[st.2]?
  pure (st.1 + d * w, wrap (st.2 + l.mInputsCount))

/-- Lines 88-99, one iteration on `prevDelta`: the inner loop from `weightIndex = inputIndex`,
`sum = 0`, then `prevDelta[inputIndex] = sum`. -/
def backwardInputStep (l : XFullyConnectedLayer float_t) (delta : fvector_t float_t)
    (inputIndex : Nat) (prevDelta : fvector_t float_t) : Option (fvector_t float_t) := do
  let r ← forLoop l.mOutputsCount (backwardDeltaStep l delta) 0 (0, inputIndex)
  store prevDelta inputIndex r.1

/-- Lines 83-100, one iteration on the `prevDeltas` buffers: sample `i`. -/
def backwardSampleStep (l : XFullyConnectedLayer float_t) (deltas : List (fvector_t float_t))
    (i : Nat) (prevDeltas : List (fvector_t float_t)) : Option (List (fvector_t float_t)) := do
  let prevDelta ← prevDeltas[i]?
  let delta ← deltas[i]?
  let r ← forLoop l.mInputsCount (backwardInputStep l delta) 0 prevDelta
  pure (prevDeltas.set i r)

/-- Lines 110-113, one iteration on `(gradWeights, weightIndex)`:
`gradWeights[weightIndex] += deltaValue * input[inputIndex]`, then `weightIndex++`. -/
def gradWeightStep (input : fvector_t float_t) (deltaValue : float_t)
    (inputIndex : Nat) (st : fvector_t float_t × Nat) : Option (fvector_t float_t × Nat) := do
  let g ← st.1[st.2]?
  let x ← input[inputIndex]?
  let gradWeights ← store st.1 st.2 (g + deltaValue * x)
  pure (gradWeights, wrap (st.2 + 1))

/-- Lines 105-114, one iteration on `gradWeights`: sample `i` of output row `outputIndex`, the
inner loop starting from `weightIndex = weightIndexStart`. -/
def gradWeightSampleStep (l : XFullyConnectedLayer float_t)
    (inputs deltas : List (fvector_t float_t)) (outputIndex weightIndexStart : Nat)
    (i : Nat) (gradWeights : fvector_t float_t) : Option (fvector_t float_t) := do
  let input ← inputs[i]?
  let delta ← deltas[i]?
  let deltaValue ← delta[outputIndex]?
  let r ← forLoop l.mInputsCount (gradWeightStep input deltaValue) 0 (gradWeights, weightIndexStart)
  pure r.1

/-- Lines 103-115, one iteration on `(gradWeights, weightIndexStart)`: the loop over the samples,
then `weightIndexStart += mInputsCount`. -/
def gradWeightOutputStep (l : XFullyConnectedLayer float_t)
    (inputs deltas : List (fvector_t float_t))
    (outputIndex : Nat) (st : fvector_t float_t × Nat) : Option (fvector_t float_t × Nat) := do
  let gradWeights ←
    forLoop inputs.length (gradWeightSampleStep l inputs deltas outputIndex st.2) 0 st.1
  pure (gradWeights, wrap (st.2 + l.mInputsCount))

/-- Lines 122-125, one iteration on `gradBiases`:
`gradBiases[outputIndex] += delta[outputIndex]`. -/
def gradBiasStep (delta : fvector_t float_t)
    (outputIndex : Nat) (gradBiases : fvector_t float_t) : Option (fvector_t float_t) := do
  let g ← gradBiases[outputIndex]?
  let d ← delta[outputIndex]?
  store gradBiases outputIndex (g + d)

/-- Lines 118-126, one iteration on `gradBiases`: sample `i`. -/
def gradBiasSampleStep (l : XFullyConnectedLayer float_t) (deltas : List (fvector_t float_t))
    (i : Nat) (gradBiases : fvector_t float_t) : Option (fvector_t float_t) := do
  let delta ← deltas[i]?
  forLoop l.mOutputsCount (gradBiasStep delta) 0 gradBiases

/-- What a `BackwardCompute` call leaves behind: the layer and the three written buffers. -/
structure BackwardResult (float_t : Type) where
  /-- The layer after the call -/
  layer : XFullyConnectedLayer float_t
  /-- The buffers behind `prevDeltas` -/
  prevDeltas : List (fvector_t float_t)
  /-- The weight gradient accumulator -/
  gradWeights : fvector_t float_t
  /-- The bias gradient accumulator -/
  gradBiases : fvector_t float_t

/-- The member function `BackwardCompute`; its second argument `outputs` is never used. -/
def BackwardCompute (l : XFullyConnectedLayer float_t)
    (inputs _outputs deltas prevDeltas : List (fvector_t float_t))
    (gradWeights gradBiases : fvector_t float_t) : Option (BackwardResult float_t) := do
  let prevDeltas ← forLoop inputs.length (backwardSampleStep l deltas) 0 prevDeltas
  let r ← forLoop l.mOutputsCount (gradWeightOutputStep l inputs deltas) 0 (gradWeights, 0)
  let gradBiases ← forLoop inputs.length (gradBiasSampleStep l deltas) 0 gradBiases
  pure { layer := l, prevDeltas := prevDeltas, gradWeights := r.1, gradBiases := gradBiases }

/-! ### UpdateWeights (source lines 130-141) -/

/-- Lines 135 and 139, one iteration on the updated vector: `v[i] += update[i]`. -/
def updateStep (update : fvector_t float_t) (i : Nat) (v : fvector_t float_t) :
    Option (fvector_t float_t) := do
  let x ← v[i]?
  let u ← update[i]?
  store v i (x + u)

/-- The member function `UpdateWeights`: the layer afterwards. -/
def UpdateWeights (l : XFullyConnectedLayer float_t) (weightsUpdate biasesUpdate : fvector_t float_t) :
    Option (XFullyConnectedLayer float_t) := do
  let weights ← forLoop l.mWeights.length (updateStep weightsUpdate) 0 l.mWeights
  let biases ← forLoop l.mBiases.length (updateStep biasesUpdate) 0 l.mBiases
  pure { l with mWeights := weights, mBiases := biases }

/-! ### Vocabulary of the statements -/

/-- Entry `i` of vector `b` of a batch argument, `( *m[b] )[i]`; outside the buffers it reads 0. -/
def entry (m : List (fvector_t float_t)) (b i : Nat) : float_t := (m.getD b []).getD i 0

/-- The parameter buffers have the sizes the constructor allocates: `mOutputsCount * mInputsCount`
weights and `mOutputsCount` biases, the size of a vector being a `size_t` value. -/
def XFullyConnectedLayer.WellShaped (l : XFullyConnectedLayer float_t) : Prop :=
  l.mWeights.length = l.mOutputsCount * l.mInputsCount ∧
    l.mBiases.length = l.mOutputsCount ∧ l.mWeights.length < 2 ^ 64

/-- A batch argument: `count` vectors, each of `len` numbers. -/
def IsBatch (m : List (fvector_t float_t)) (count len : Nat) : Prop :=
  m.length = count ∧ ∀ v ∈ m, v.length = len

/-- The layer of the worked example: two inputs, one output, weights 0.5 and -0.5, bias 0.1. -/
def exampleLayer : XFullyConnectedLayer ℚ :=
  { mInputsCount := 2, mOutputsCount := 1, mWeights := [1 / 2, -1 / 2], mBiases := [1 / 10] }

end Code

section Construction

variable {float_t : Type} [Field float_t]

/-! ### Randomize (source lines 36-48) and the constructor (source lines 27-33)

`sqrt` (of `<cmath>`), `RAND_MAX` and the results of `rand( )` (of `<cstdlib>`) are parameters:
`rand k` is the result of call number `k` of `rand( )` since `Randomize` was entered.

A construction either produces a layer or ends in an exception.  Of `std::vector` the
parameters are `max_size`, the value of `max_size( )`, and `storage`: `storage k n` tells whether
vector construction number `k` of the constructor call (0 for `mWeights`, 1 for `mBiases`)
obtains the storage of its `n` elements. -/

/-- The exceptions a construction can end in: the `ConstructionError` of the spec, and the
`std::length_error` and `std::bad_alloc` of `std::vector`. -/
inductive Exception where
  /-- A zero count, rejected at construction -/
  | ConstructionError
  /-- A vector of more than `max_size( )` elements was asked for -/
  | length_error
  /-- The storage of a vector could not be obtained -/
  | bad_alloc
  deriving DecidableEq

/-- Modelled from the spec: the base class constructor `ITrainableLayer( inputsCount, outputsCount )`,
whose source is not at hand.  By the spec `InputsCount` and `OutputsCount` are fixed at
construction, both greater than 0, and a zero `InputsCount` or `OutputsCount` is rejected
immediately with a `ConstructionError`; otherwise the two counts are kept, in this order. -/
def ITrainableLayer (inputsCount outputsCount : Nat) : Except Exception (Nat × Nat) :=
  if inputsCount = 0 ∨ outputsCount = 0 then Except.error Exception.ConstructionError
  else Except.ok (inputsCount, outputsCount)

/-- The construction `std::vector<float_t>( n )`: `n` zeros; it throws `std::length_error` when
`n` is more than `max_size( )` and `std::bad_alloc` when the storage is not obtained. -/
def vectorOfSize (max_size : Nat) (storage : Nat → Bool) (n : Nat) :
    Except Exception (fvector_t float_t) :=
  if max_size < n then Except.error Exception.length_error
  else if storage n then Except.ok (List.replicate n 0)
  else Except.error Exception.bad_alloc

/-- Lines 40-43, the range-for over the weights still to visit, `k` calls of `rand( )` made so far:
`w = ( static_cast<float_t>( rand( ) ) / RAND_MAX ) * ( float_t( 2 ) * halfRange ) - halfRange`. -/
def randomizeWeights (halfRange : float_t) (RAND_MAX : Nat) (rand : Nat → Nat) :
    Nat → fvector_t float_t → fvector_t float_t
  | _, [] => []
  | k, _ :: ws =>
    ((((rand k : Nat) : float_t) / (RAND_MAX : float_t)) * (2 * halfRange) - halfRange) ::
      randomizeWeights halfRange RAND_MAX rand (k + 1) ws

/-- The member function `Randomize`: `halfRange = sqrt( float_t( 3 ) / mInputsCount )`, the
range-for over `mWeights`, then the range-for of lines 44-47 that sets every bias to 0. -/
def Randomize (sqrt : float_t → float_t) (RAND_MAX : Nat) (rand : Nat → Nat)
    (l : XFullyConnectedLayer float_t) : XFullyConnectedLayer float_t :=
  let halfRange := sqrt (3 / (l.mInputsCount : float_t))
  { l with
    mWeights := randomizeWeights halfRange RAND_MAX rand 0 l.mWeights
    mBiases := l.mBiases.map (fun _ => 0) }

/-- The constructor `XFullyConnectedLayer( inputsCount, outputsCount )`, in the order of its
initialiser list: the base class `ITrainableLayer( inputsCount, outputsCount )`, then
`mWeights( inputsCount * outputsCount )`, the product being a `size_t` product, then
`mBiases( outputsCount )`, then the body, `Randomize( )`.  The first exception ends the
construction.  The source has no other statement: no check and no `throw` of its own. -/
def XFullyConnectedLayer.ctor (sqrt : float_t → float_t) (RAND_MAX : Nat) (rand : Nat → Nat)
    (max_size : Nat) (storage : Nat → Nat → Bool) (inputsCount outputsCount : Nat) :
    Except Exception (XFullyConnectedLayer float_t) := do
  let counts ← ITrainableLayer inputsCount outputsCount
  let weights ← vectorOfSize max_size (storage 0) (wrap (inputsCount * outputsCount))
  let biases ← vectorOfSize max_size (storage 1) outputsCount
  pure (Randomize sqrt RAND_MAX rand
    { mInputsCount := counts.1, mOutputsCount := counts.2, mWeights := weights,
      mBiases := biases })

end Construction

/-! ## Loop rules and buffer lemmas -/

theorem forLoop_step {σ : Type} (n : Nat) (body : Nat → σ → Option σ) (i : Nat) (s : σ)
    (h : i < n) : forLoop n body i s = (body i s).bind (forLoop n body (i + 1)) := by
  rw [forLoop, if_pos h]

theorem forLoop_done {σ : Type} (n : Nat) (body : Nat → σ → Option σ) (i : Nat) (s : σ)
    (h : n ≤ i) : forLoop n body i s = some s := by
  rw [forLoop, if_neg (by omega)]

theorem forLoop_inv_from {σ : Type} (n : Nat) (body : Nat → σ → Option σ) (Inv : Nat → σ → Prop)
    (hstep : ∀ j s, j < n → Inv j s → ∃ s', body j s = some s' ∧ Inv (j + 1) s') :
    ∀ (k i : Nat) (s : σ), i + k = n → Inv i s → ∃ s', forLoop n body i s = some s' ∧ Inv n s' := by
  intro k
  induction k with
  | zero =>
    intro i s hi hs
    have : i = n := by omega
    subst this
    exact ⟨s, forLoop_done _ _ _ _ (le_refl _), hs⟩
  | succ k ih =>
    intro i s hi hs
    obtain ⟨s1, h1, h2⟩ := hstep i s (by omega) hs
    obtain ⟨s2, h3, h4⟩ := ih (i + 1) s1 (by omega) h2
    refine ⟨s2, ?_, h4⟩
    rw [forLoop_step _ _ _ _ (by omega), h1]
    exact h3

/-- Invariant rule for the counted loop: an invariant that holds on entry and is carried by
every iteration that runs makes the loop return, in a state where the invariant holds at `n`. -/
theorem forLoop_inv {σ : Type} (n : Nat) (body : Nat → σ → Option σ) (Inv : Nat → σ → Prop)
    (s : σ) (h0 : Inv 0 s)
    (hstep : ∀ j s, j < n → Inv j s → ∃ s', body j s = some s' ∧ Inv (j + 1) s') :
    ∃ s', forLoop n body 0 s = some s' ∧ Inv n s' :=
  forLoop_inv_from n body Inv hstep n 0 s (by omega) h0

/-- A counted loop passes through the state its first `j` iterations reach. -/
theorem forLoop_split {σ : Type} (n : Nat) (body : Nat → σ → Option σ) (j : Nat) (hj : j ≤ n) :
    ∀ (k i : Nat) (s : σ), i + k = j →
      forLoop n body i s = (forLoop j body i s).bind (forLoop n body j) := by
  intro k
  induction k with
  | zero =>
    intro i s hi
    have : i = j := by omega
    subst this
    rw [forLoop_done i body i s (le_refl _)]
    rfl
  | succ k ih =>
    intro i s hi
    rw [forLoop_step n body i s (by omega), forLoop_step j body i s (by omega)]
    cases h : body i s with
    | none => rfl
    | some s1 =>
      simp only [Option.some_bind]
      exact ih (i + 1) s1 (by omega)

theorem getElem?_eq_getD {α : Type} (v : List α) (i : Nat) (d : α) (h : i < v.length) :
    v[i]? = some (v.getD i d) := by
  simp [List.getD_eq_getElem?_getD, List.getElem?_eq_getElem h]

theorem store_eq {α : Type} (v : List α) (i : Nat) (x : α) (h : i < v.length) :
    store v i x = some (v.set i x) := by
  simp [store, h]

theorem getD_set {α : Type} (v : List α) (i j : Nat) (x d : α) :
    (v.set i x).getD j d = if i = j ∧ i < v.length then x else v.getD j d := by
  simp only [List.getD_eq_getElem?_getD, List.getElem?_set]
  by_cases hij : i = j
  · subst hij
    by_cases hl : i < v.length
    · simp [hl]
    · simp [hl, List.getElem?_eq_none (le_of_not_lt hl)]
  · simp [hij]

theorem wrap_eq (n : Nat) (h : n < 2 ^ 64) : wrap n = n := Nat.mod_eq_of_lt h

section Loops

variable {float_t : Type} [CommRing float_t]

/-! ## What each loop of the source computes -/


theorem forwardInput_loop (l : XFullyConnectedLayer float_t) (input : fvector_t float_t)
    (w0 : Nat) (hin : l.mInputsCount ≤ input.length)
    (hw : w0 + l.mInputsCount ≤ l.mWeights.length) (hsz : l.mWeights.length < 2 ^ 64) :
    forLoop l.mInputsCount (forwardInputStep l input) 0 (0, w0) =
      some (∑ i in Finset.range l.mInputsCount, l.mWeights.getD (w0 + i) 0 * input.getD i 0,
        w0 + l.mInputsCount) := by
  obtain ⟨s, hs, hinv⟩ := forLoop_inv l.mInputsCount (forwardInputStep l input)
    (fun j st => st = (∑ i in Finset.range j, l.mWeights.getD (w0 + i) 0 * input.getD i 0, w0 + j))
    (0, w0) (by simp) (by
      intro j st hj hst
      subst hst
      refine ⟨_, ?_, rfl⟩
      simp only [forwardInputStep]
      rw [getElem?_eq_getD input j 0 (by omega), getElem?_eq_getD l.mWeights (w0 + j) 0 (by omega)]
      simp only [Option.bind_eq_bind, Option.some_bind, Option.pure_def, Option.some.injEq]
      rw [wrap_eq _ (by omega), Finset.sum_range_succ, mul_comm (input.getD j 0)]
      rfl)
  rw [hs, hinv]

theorem forwardOutputStep_eq (l : XFullyConnectedLayer float_t) (input out : fvector_t float_t)
    (j : Nat) (hj : j < l.mOutputsCount)
    (hin : l.mInputsCount ≤ input.length) (hout : l.mOutputsCount ≤ out.length)
    (hw : l.mWeights.length = l.mOutputsCount * l.mInputsCount)
    (hb : l.mBiases.length = l.mOutputsCount) (hsz : l.mWeights.length < 2 ^ 64) :
    forwardOutputStep l input j (out, j * l.mInputsCount) =
      some (out.set j (l.mBiases.getD j 0 + ∑ i in Finset.range l.mInputsCount,
            l.mWeights.getD (j * l.mInputsCount + i) 0 * input.getD i 0),
        (j + 1) * l.mInputsCount) := by
  have hle : (j + 1) * l.mInputsCount ≤ l.mOutputsCount * l.mInputsCount :=
    Nat.mul_le_mul_right _ hj
  have hex : (j + 1) * l.mInputsCount = j * l.mInputsCount + l.mInputsCount := by ring
  simp only [forwardOutputStep]
  rw [forwardInput_loop l input _ hin (by omega) hsz, getElem?_eq_getD l.mBiases j 0 (by omega)]
  simp only [Option.bind_eq_bind, Option.some_bind, Option.pure_def]
  rw [store_eq _ _ _ (by omega)]
  simp only [Option.some_bind, hex, add_comm]

theorem forwardOutput_loop (l : XFullyConnectedLayer float_t) (input output : fvector_t float_t)
    (hin : l.mInputsCount ≤ input.length) (hout : l.mOutputsCount ≤ output.length)
    (hw : l.mWeights.length = l.mOutputsCount * l.mInputsCount)
    (hb : l.mBiases.length = l.mOutputsCount) (hsz : l.mWeights.length < 2 ^ 64) :
    ∃ r, forLoop l.mOutputsCount (forwardOutputStep l input) 0 (output, 0) = some r ∧
      r.1.length = output.length ∧
      ∀ o, r.1.getD o 0 = if o < l.mOutputsCount then
          l.mBiases.getD o 0 + ∑ i in Finset.range l.mInputsCount,
            l.mWeights.getD (o * l.mInputsCount + i) 0 * input.getD i 0
        else output.getD o 0 := by
  obtain ⟨s, hs, hinv⟩ := forLoop_inv l.mOutputsCount (forwardOutputStep l input)
    (fun j st => st.2 = j * l.mInputsCount ∧ st.1.length = output.length ∧
      ∀ o, st.1.getD o 0 = if o < j then
          l.mBiases.getD o 0 + ∑ i in Finset.range l.mInputsCount,
            l.mWeights.getD (o * l.mInputsCount + i) 0 * input.getD i 0
        else output.getD o 0)
    (output, 0) (by simp) (by
      rintro j ⟨out, wi⟩ hj ⟨h1, h2, h3⟩
      simp only at h1 h2 h3
      subst h1
      refine ⟨_, forwardOutputStep_eq l input out j hj hin (by omega) hw hb hsz, rfl,
        by simpa using h2, ?_⟩
      intro o
      simp only [getD_set, h3]
      by_cases hoj : j = o
      · subst hoj
        simp [show j < out.length by omega]
      · have : (o < j + 1) ↔ o < j := by omega
        simp [hoj, this])
  exact ⟨s, hs, hinv.2.1, hinv.2.2⟩

theorem entry_set (m : List (fvector_t float_t)) (j : Nat) (v : fvector_t float_t) (b i : Nat) :
    entry (m.set j v) b i = if j = b ∧ j < m.length then v.getD i 0 else entry m b i := by
  unfold entry
  rw [getD_set]
  split <;> rfl

theorem forwardSample_loop (l : XFullyConnectedLayer float_t)
    (inputs outputs : List (fvector_t float_t))
    (hw : l.mWeights.length = l.mOutputsCount * l.mInputsCount)
    (hb : l.mBiases.length = l.mOutputsCount) (hsz : l.mWeights.length < 2 ^ 64)
    (hlen : inputs.length ≤ outputs.length)
    (hin : ∀ b, b < inputs.length → l.mInputsCount ≤ (inputs.getD b []).length)
    (hout : ∀ b, b < inputs.length → l.mOutputsCount ≤ (outputs.getD b []).length) :
    ∃ outs, forLoop inputs.length (forwardSampleStep l inputs) 0 outputs = some outs ∧
      outs.length = outputs.length ∧
      (∀ b, (outs.getD b []).length = (outputs.getD b []).length) ∧
      ∀ b o, entry outs b o = if b < inputs.length ∧ o < l.mOutputsCount then
          l.mBiases.getD o 0 + ∑ i in Finset.range l.mInputsCount,
            l.mWeights.getD (o * l.mInputsCount + i) 0 * entry inputs b i
        else entry outputs b o := by
  refine forLoop_inv inputs.length (forwardSampleStep l inputs)
    (fun j outs => outs.length = outputs.length ∧
      (∀ b, (outs.getD b []).length = (outputs.getD b []).length) ∧
      ∀ b o, entry outs b o = if b < j ∧ o < l.mOutputsCount then
          l.mBiases.getD o 0 + ∑ i in Finset.range l.mInputsCount,
            l.mWeights.getD (o * l.mInputsCount + i) 0 * entry inputs b i
        else entry outputs b o)
    outputs (by simp) ?_
  rintro j outs hj ⟨h1, h2, h3⟩
  obtain ⟨r, hr, hrl, hrv⟩ := forwardOutput_loop l (inputs.getD j []) (outs.getD j [])
    (hin j hj) (by rw [h2]; exact hout j hj) hw hb hsz
  refine ⟨outs.set j r.1, ?_, by simpa using h1, ?_, ?_⟩
  · simp only [forwardSampleStep]
    rw [getElem?_eq_getD inputs j [] hj, getElem?_eq_getD outs j [] (by omega)]
    simp only [Option.bind_eq_bind, Option.some_bind, Option.pure_def, hr]
  · intro b
    rw [getD_set]
    split
    · rename_i h
      rw [hrl, ← h2, h.1]
    · exact h2 b
  · intro b o
    rw [entry_set, h3, hrv]
    by_cases hjb : j = b
    · subst hjb
      have hlt : j < outs.length := by omega
      by_cases ho : o < l.mOutputsCount
      · simp [hlt, ho, entry]
      · simp only [hlt, ho, and_false, if_false, and_self, if_true]
        have := h3 j o
        simp only [ho, and_false, if_false] at this
        rw [← this, entry]
    · have : (b < j + 1) ↔ b < j := by omega
      simp [hjb, this]

theorem backwardDelta_loop (l : XFullyConnectedLayer float_t) (delta : fvector_t float_t)
    (i : Nat) (hi : i < l.mInputsCount) (hd : l.mOutputsCount ≤ delta.length)
    (hw : l.mWeights.length = l.mOutputsCount * l.mInputsCount)
    (hsz : l.mWeights.length < 2 ^ 64) :
    ∃ r, forLoop l.mOutputsCount (backwardDeltaStep l delta) 0 (0, i) = some r ∧
      r.1 = ∑ o in Finset.range l.mOutputsCount,
          delta.getD o 0 * l.mWeights.getD (o * l.mInputsCount + i) 0 := by
  obtain ⟨s, hs, hinv⟩ := forLoop_inv l.mOutputsCount (backwardDeltaStep l delta)
    (fun j st => st.1 = ∑ o in Finset.range j,
          delta.getD o 0 * l.mWeights.getD (o * l.mInputsCount + i) 0 ∧
        (j < l.mOutputsCount → st.2 = j * l.mInputsCount + i))
    (0, i) (by simp) (by
      rintro j ⟨sum, wi⟩ hj ⟨h1, h2⟩
      simp only at h1 h2
      have h2 := h2 hj
      subst h1 h2
      have hle : (j + 1) * l.mInputsCount ≤ l.mOutputsCount * l.mInputsCount :=
        Nat.mul_le_mul_right _ hj
      have hex : (j + 1) * l.mInputsCount = j * l.mInputsCount + l.mInputsCount := by ring
      refine ⟨(_, wrap (j * l.mInputsCount + i + l.mInputsCount)), ?_,
        (Finset.sum_range_succ _ _).symm, ?_⟩
      · simp only [backwardDeltaStep]
        rw [getElem?_eq_getD delta j 0 (by omega),
          getElem?_eq_getD l.mWeights (j * l.mInputsCount + i) 0 (by omega)]
        simp only [Option.bind_eq_bind, Option.some_bind, Option.pure_def]
      · intro hj1
        have hle2 : (j + 1 + 1) * l.mInputsCount ≤ l.mOutputsCount * l.mInputsCount :=
          Nat.mul_le_mul_right _ hj1
        have hex2 : (j + 1 + 1) * l.mInputsCount =
            (j + 1) * l.mInputsCount + l.mInputsCount := by ring
        show wrap (j * l.mInputsCount + i + l.mInputsCount) = (j + 1) * l.mInputsCount + i
        rw [wrap_eq _ (by omega)]
        omega)
  exact ⟨s, hs, hinv.1⟩

theorem backwardInputStep_eq (l : XFullyConnectedLayer float_t) (delta r : fvector_t float_t)
    (j : Nat) (hj : j < l.mInputsCount) (hd : l.mOutputsCount ≤ delta.length)
    (hr : l.mInputsCount ≤ r.length)
    (hw : l.mWeights.length = l.mOutputsCount * l.mInputsCount)
    (hsz : l.mWeights.length < 2 ^ 64) :
    backwardInputStep l delta j r = some (r.set j (∑ o in Finset.range l.mOutputsCount,
      delta.getD o 0 * l.mWeights.getD (o * l.mInputsCount + j) 0)) := by
  obtain ⟨s, hs, hv⟩ := backwardDelta_loop l delta j hj hd hw hsz
  simp only [backwardInputStep]
  rw [hs]
  simp only [Option.bind_eq_bind, Option.some_bind]
  rw [store_eq _ _ _ (by omega), hv]

theorem backwardInput_loop (l : XFullyConnectedLayer float_t) (delta prevDelta : fvector_t float_t)
    (hd : l.mOutputsCount ≤ delta.length) (hp : l.mInputsCount ≤ prevDelta.length)
    (hw : l.mWeights.length = l.mOutputsCount * l.mInputsCount)
    (hsz : l.mWeights.length < 2 ^ 64) :
    ∃ r, forLoop l.mInputsCount (backwardInputStep l delta) 0 prevDelta = some r ∧
      r.length = prevDelta.length ∧
      ∀ i, r.getD i 0 = if i < l.mInputsCount then
          ∑ o in Finset.range l.mOutputsCount,
            delta.getD o 0 * l.mWeights.getD (o * l.mInputsCount + i) 0
        else prevDelta.getD i 0 := by
  refine forLoop_inv l.mInputsCount (backwardInputStep l delta)
    (fun j r => r.length = prevDelta.length ∧
      ∀ i, r.getD i 0 = if i < j then
          ∑ o in Finset.range l.mOutputsCount,
            delta.getD o 0 * l.mWeights.getD (o * l.mInputsCount + i) 0
        else prevDelta.getD i 0)
    prevDelta (by simp) ?_
  rintro j r hj ⟨h1, h2⟩
  refine ⟨_, backwardInputStep_eq l delta r j hj hd (by omega) hw hsz, by simpa using h1, ?_⟩
  intro i
  rw [getD_set, h2]
  by_cases hji : j = i
  · subst hji
    simp [show j < r.length by omega]
  · have : (i < j + 1) ↔ i < j := by omega
    simp [hji, this]

theorem backwardSample_loop (l : XFullyConnectedLayer float_t)
    (n : Nat) (deltas prevDeltas : List (fvector_t float_t))
    (hw : l.mWeights.length = l.mOutputsCount * l.mInputsCount)
    (hsz : l.mWeights.length < 2 ^ 64)
    (hdl : n ≤ deltas.length) (hpl : n ≤ prevDeltas.length)
    (hd : ∀ b, b < n → l.mOutputsCount ≤ (deltas.getD b []).length)
    (hp : ∀ b, b < n → l.mInputsCount ≤ (prevDeltas.getD b []).length) :
    ∃ prev, forLoop n (backwardSampleStep l deltas) 0 prevDeltas = some prev ∧
      prev.length = prevDeltas.length ∧
      (∀ b, (prev.getD b []).length = (prevDeltas.getD b []).length) ∧
      ∀ b i, entry prev b i = if b < n ∧ i < l.mInputsCount then
          ∑ o in Finset.range l.mOutputsCount,
            entry deltas b o * l.mWeights.getD (o * l.mInputsCount + i) 0
        else entry prevDeltas b i := by
  refine forLoop_inv n (backwardSampleStep l deltas)
    (fun j prev => prev.length = prevDeltas.length ∧
      (∀ b, (prev.getD b []).length = (prevDeltas.getD b []).length) ∧
      ∀ b i, entry prev b i = if b < j ∧ i < l.mInputsCount then
          ∑ o in Finset.range l.mOutputsCount,
            entry deltas b o * l.mWeights.getD (o * l.mInputsCount + i) 0
        else entry prevDeltas b i)
    prevDeltas (by simp) ?_
  rintro j prev hj ⟨h1, h2, h3⟩
  obtain ⟨r, hr, hrl, hrv⟩ := backwardInput_loop l (deltas.getD j []) (prev.getD j [])
    (hd j hj) (by rw [h2]; exact hp j hj) hw hsz
  refine ⟨prev.set j r, ?_, by simpa using h1, ?_, ?_⟩
  · simp only [backwardSampleStep]
    rw [getElem?_eq_getD prev j [] (by omega), getElem?_eq_getD deltas j [] (by omega)]
    simp only [Option.bind_eq_bind, Option.some_bind, Option.pure_def, hr]
  · intro b
    rw [getD_set]
    split
    · rename_i h
      rw [hrl, ← h2, h.1]
    · exact h2 b
  · intro b i
    rw [entry_set, h3, hrv]
    by_cases hjb : j = b
    · subst hjb
      have hlt : j < prev.length := by omega
      by_cases hi : i < l.mInputsCount
      · simp [hlt, hi, entry]
      · simp only [hlt, hi, and_false, if_false, and_self, if_true]
        have := h3 j i
        simp only [hi, and_false, if_false] at this
        rw [← this, entry]
    · have : (b < j + 1) ↔ b < j := by omega
      simp [hjb, this]

theorem gradWeightStep_eq (input g : fvector_t float_t) (d : float_t) (w j : Nat)
    (hj : j < input.length) (hw : w < g.length) (hsz : g.length < 2 ^ 64) :
    gradWeightStep input d j (g, w) =
      some (g.set w (g.getD w 0 + d * input.getD j 0), w + 1) := by
  simp only [gradWeightStep]
  rw [getElem?_eq_getD g w 0 hw, getElem?_eq_getD input j 0 hj]
  simp only [Option.bind_eq_bind, Option.some_bind, Option.pure_def]
  rw [store_eq _ _ _ hw, wrap_eq _ (by omega)]
  rfl

theorem gradWeight_loop (input gw : fvector_t float_t) (d : float_t) (n ws : Nat)
    (hin : n ≤ input.length) (hg : ws + n ≤ gw.length) (hsz : gw.length < 2 ^ 64) :
    ∃ r, forLoop n (gradWeightStep input d) 0 (gw, ws) = some r ∧ r.1.length = gw.length ∧
      ∀ k, r.1.getD k 0 = gw.getD k 0 +
        if ws ≤ k ∧ k < ws + n then d * input.getD (k - ws) 0 else 0 := by
  obtain ⟨s, hs, hinv⟩ := forLoop_inv n (gradWeightStep input d)
    (fun j st => st.2 = ws + j ∧ st.1.length = gw.length ∧
      ∀ k, st.1.getD k 0 = gw.getD k 0 +
        if ws ≤ k ∧ k < ws + j then d * input.getD (k - ws) 0 else 0)
    (gw, ws) (by simp) (by
      rintro j ⟨g, w⟩ hj ⟨h1, h2, h3⟩
      simp only at h1 h2 h3
      subst h1
      refine ⟨_, gradWeightStep_eq input g d (ws + j) j (by omega) (by omega) (by omega), rfl,
        by simpa using h2, ?_⟩
      intro k
      simp only [getD_set, h3]
      by_cases hk : ws + j = k
      · subst hk
        simp [show ws + j < g.length by omega]
      · have : (ws ≤ k ∧ k < ws + (j + 1)) ↔ (ws ≤ k ∧ k < ws + j) := by omega
        simp [hk, this])
  exact ⟨s, hs, hinv.2.1, hinv.2.2⟩

theorem gradWeightSample_loop (l : XFullyConnectedLayer float_t)
    (inputs deltas : List (fvector_t float_t)) (o ws : Nat) (gw : fvector_t float_t)
    (hdl : inputs.length ≤ deltas.length)
    (hin : ∀ b, b < inputs.length → l.mInputsCount ≤ (inputs.getD b []).length)
    (hd : ∀ b, b < inputs.length → o < (deltas.getD b []).length)
    (hg : ws + l.mInputsCount ≤ gw.length) (hsz : gw.length < 2 ^ 64) :
    ∃ r, forLoop inputs.length (gradWeightSampleStep l inputs deltas o ws) 0 gw = some r ∧
      r.length = gw.length ∧
      ∀ k, r.getD k 0 = gw.getD k 0 +
        if ws ≤ k ∧ k < ws + l.mInputsCount then
          ∑ b in Finset.range inputs.length, entry deltas b o * entry inputs b (k - ws)
        else 0 := by
  refine forLoop_inv inputs.length (gradWeightSampleStep l inputs deltas o ws)
    (fun j r => r.length = gw.length ∧
      ∀ k, r.getD k 0 = gw.getD k 0 +
        if ws ≤ k ∧ k < ws + l.mInputsCount then
          ∑ b in Finset.range j, entry deltas b o * entry inputs b (k - ws)
        else 0)
    gw (by simp) ?_
  rintro j g hj ⟨h1, h2⟩
  obtain ⟨r, hr, hrl, hrv⟩ := gradWeight_loop (inputs.getD j []) g ((deltas.getD j []).getD o 0)
    l.mInputsCount ws (hin j hj) (by omega) (by omega)
  refine ⟨r.1, ?_, by omega, ?_⟩
  · simp only [gradWeightSampleStep]
    rw [getElem?_eq_getD inputs j [] hj, getElem?_eq_getD deltas j [] (by omega)]
    simp only [Option.bind_eq_bind, Option.some_bind, Option.pure_def]
    rw [getElem?_eq_getD (deltas.getD j []) o 0 (hd j hj)]
    simp only [Option.some_bind, hr]
  · intro k
    rw [hrv, h2]
    by_cases hk : ws ≤ k ∧ k < ws + l.mInputsCount
    · simp only [hk, and_self, if_true, Finset.sum_range_succ, entry]
      ring
    · simp [hk]

theorem gradWeightOutput_loop (l : XFullyConnectedLayer float_t)
    (inputs deltas : List (fvector_t float_t)) (gw : fvector_t float_t)
    (hdl : inputs.length ≤ deltas.length)
    (hin : ∀ b, b < inputs.length → l.mInputsCount ≤ (inputs.getD b []).length)
    (hd : ∀ b, b < inputs.length → l.mOutputsCount ≤ (deltas.getD b []).length)
    (hg : l.mOutputsCount * l.mInputsCount ≤ gw.length) (hsz : gw.length < 2 ^ 64) :
    ∃ r, forLoop l.mOutputsCount (gradWeightOutputStep l inputs deltas) 0 (gw, 0) = some r ∧
      r.1.length = gw.length ∧
      ∀ k, r.1.getD k 0 = gw.getD k 0 +
        if k < l.mOutputsCount * l.mInputsCount then
          ∑ b in Finset.range inputs.length,
            entry deltas b (k / l.mInputsCount) * entry inputs b (k % l.mInputsCount)
        else 0 := by
  obtain ⟨s, hs, hinv⟩ := forLoop_inv l.mOutputsCount (gradWeightOutputStep l inputs deltas)
    (fun j st => st.2 = j * l.mInputsCount ∧ st.1.length = gw.length ∧
      ∀ k, st.1.getD k 0 = gw.getD k 0 +
        if k < j * l.mInputsCount then
          ∑ b in Finset.range inputs.length,
            entry deltas b (k / l.mInputsCount) * entry inputs b (k % l.mInputsCount)
        else 0)
    (gw, 0) (by simp) (by
      rintro j ⟨g, w⟩ hj ⟨h1, h2, h3⟩
      simp only at h1 h2 h3
      subst h1
      have hle : (j + 1) * l.mInputsCount ≤ l.mOutputsCount * l.mInputsCount :=
        Nat.mul_le_mul_right _ hj
      have hex : (j + 1) * l.mInputsCount = j * l.mInputsCount + l.mInputsCount := by ring
      obtain ⟨r, hr, hrl, hrv⟩ := gradWeightSample_loop l inputs deltas j (j * l.mInputsCount) g
        hdl hin (fun b hb => lt_of_lt_of_le hj (hd b hb)) (by omega) (by omega)
      refine ⟨(r, (j + 1) * l.mInputsCount), ?_, rfl, by simpa [hrl] using h2, ?_⟩
      · simp only [gradWeightOutputStep, hr, Option.bind_eq_bind, Option.some_bind,
          Option.pure_def]
        rw [wrap_eq _ (by omega), hex]
      · intro k
        show r.getD k 0 = _
        rw [hrv, h3, hex]
        by_cases h1 : k < j * l.mInputsCount
        · have h2 : ¬ (j * l.mInputsCount ≤ k ∧ k < j * l.mInputsCount + l.mInputsCount) := by
            omega
          have h3 : k < j * l.mInputsCount + l.mInputsCount := by omega
          simp [h1, h2, h3]
        · by_cases h2 : k < j * l.mInputsCount + l.mInputsCount
          · have hdiv : k / l.mInputsCount = j :=
              Nat.div_eq_of_lt_le (by omega) (by rw [hex]; exact h2)
            have hmod : k % l.mInputsCount = k - j * l.mInputsCount := by
              have := Nat.div_add_mod k l.mInputsCount
              rw [hdiv, mul_comm] at this
              omega
            have h4 : j * l.mInputsCount ≤ k := by omega
            simp [h1, h2, h4, hdiv, hmod]
          · have h4 : ¬ (j * l.mInputsCount ≤ k ∧ k < j * l.mInputsCount + l.mInputsCount) := by
              omega
            simp [h1, h2, h4])
  exact ⟨s, hs, hinv.2.1, hinv.2.2⟩

theorem updateStep_eq (u v : fvector_t float_t) (j : Nat)
    (hv : j < v.length) (hu : j < u.length) :
    updateStep u j v = some (v.set j (v.getD j 0 + u.getD j 0)) := by
  simp only [updateStep]
  rw [getElem?_eq_getD v j 0 hv, getElem?_eq_getD u j 0 hu]
  simp only [Option.bind_eq_bind, Option.some_bind]
  rw [store_eq _ _ _ hv]

theorem update_loop (u v : fvector_t float_t) (n : Nat)
    (hv : n ≤ v.length) (hu : n ≤ u.length) :
    ∃ r, forLoop n (updateStep u) 0 v = some r ∧ r.length = v.length ∧
      ∀ k, r.getD k 0 = v.getD k 0 + if k < n then u.getD k 0 else 0 := by
  refine forLoop_inv n (updateStep u)
    (fun j r => r.length = v.length ∧
      ∀ k, r.getD k 0 = v.getD k 0 + if k < j then u.getD k 0 else 0)
    v (by simp) ?_
  rintro j r hj ⟨h1, h2⟩
  refine ⟨_, updateStep_eq u r j (by omega) (by omega), by simpa using h1, ?_⟩
  intro k
  rw [getD_set]
  by_cases hjk : j = k
  · subst hjk
    have hjr : j < r.length := by omega
    have h3 := h2 j
    simp only [lt_irrefl, if_false, add_zero] at h3
    simp only [hjr, and_self, if_true, h3, Nat.lt_succ_self]
  · have : (k < j + 1) ↔ k < j := by omega
    simp only [hjk, false_and, if_false, this]
    exact h2 k

theorem gradBiasStep_eq_updateStep (delta : fvector_t float_t) :
    gradBiasStep delta = updateStep delta := rfl

theorem gradBiasSample_loop (l : XFullyConnectedLayer float_t) (n : Nat)
    (deltas : List (fvector_t float_t)) (gb : fvector_t float_t)
    (hdl : n ≤ deltas.length)
    (hd : ∀ b, b < n → l.mOutputsCount ≤ (deltas.getD b []).length)
    (hg : l.mOutputsCount ≤ gb.length) :
    ∃ r, forLoop n (gradBiasSampleStep l deltas) 0 gb = some r ∧ r.length = gb.length ∧
      ∀ k, r.getD k 0 = gb.getD k 0 +
        if k < l.mOutputsCount then ∑ b in Finset.range n, entry deltas b k else 0 := by
  refine forLoop_inv n (gradBiasSampleStep l deltas)
    (fun j r => r.length = gb.length ∧
      ∀ k, r.getD k 0 = gb.getD k 0 +
        if k < l.mOutputsCount then ∑ b in Finset.range j, entry deltas b k else 0)
    gb (by simp) ?_
  rintro j g hj ⟨h1, h2⟩
  obtain ⟨r, hr, hrl, hrv⟩ := update_loop (deltas.getD j []) g l.mOutputsCount
    (by omega) (hd j hj)
  refine ⟨r, ?_, by omega, ?_⟩
  · simp only [gradBiasSampleStep]
    rw [getElem?_eq_getD deltas j [] (by omega)]
    simp only [Option.bind_eq_bind, Option.some_bind, gradBiasStep_eq_updateStep, hr]
  · intro k
    rw [hrv, h2]
    by_cases hk : k < l.mOutputsCount
    · simp only [hk, if_true, Finset.sum_range_succ, entry]
      ring
    · simp [hk]

/-- `ForwardCompute` on buffers that are large enough: it returns, keeps every buffer length, writes
the affine map into the first `inputs.size()` outputs and leaves every other entry. -/
theorem ForwardCompute_spec (l : XFullyConnectedLayer float_t)
    (inputs outputs : List (fvector_t float_t))
    (hw : l.mWeights.length = l.mOutputsCount * l.mInputsCount)
    (hb : l.mBiases.length = l.mOutputsCount) (hsz : l.mWeights.length < 2 ^ 64)
    (hlen : inputs.length ≤ outputs.length)
    (hin : ∀ b, b < inputs.length → l.mInputsCount ≤ (inputs.getD b []).length)
    (hout : ∀ b, b < inputs.length → l.mOutputsCount ≤ (outputs.getD b []).length) :
    ∃ outs, ForwardCompute l inputs outputs = some (l, outs) ∧
      outs.length = outputs.length ∧
      (∀ b, (outs.getD b []).length = (outputs.getD b []).length) ∧
      ∀ b o, entry outs b o = if b < inputs.length ∧ o < l.mOutputsCount then
          l.mBiases.getD o 0 + ∑ i in Finset.range l.mInputsCount,
            l.mWeights.getD (o * l.mInputsCount + i) 0 * entry inputs b i
        else entry outputs b o := by
  obtain ⟨outs, h1, h2⟩ := forwardSample_loop l inputs outputs hw hb hsz hlen hin hout
  refine ⟨outs, ?_, h2⟩
  simp only [ForwardCompute, h1, Option.bind_eq_bind, Option.some_bind, Option.pure_def]

/-- `BackwardCompute` on buffers that are large enough: it returns, and each of its three passes
is described entry by entry. -/
theorem BackwardCompute_spec (l : XFullyConnectedLayer float_t)
    (inputs outputs deltas prevDeltas : List (fvector_t float_t))
    (gradWeights gradBiases : fvector_t float_t)
    (hw : l.mWeights.length = l.mOutputsCount * l.mInputsCount)
    (hsz : l.mWeights.length < 2 ^ 64)
    (hdl : inputs.length ≤ deltas.length) (hpl : inputs.length ≤ prevDeltas.length)
    (hin : ∀ b, b < inputs.length → l.mInputsCount ≤ (inputs.getD b []).length)
    (hd : ∀ b, b < inputs.length → l.mOutputsCount ≤ (deltas.getD b []).length)
    (hp : ∀ b, b < inputs.length → l.mInputsCount ≤ (prevDeltas.getD b []).length)
    (hgw : l.mOutputsCount * l.mInputsCount ≤ gradWeights.length)
    (hgsz : gradWeights.length < 2 ^ 64)
    (hgb : l.mOutputsCount ≤ gradBiases.length) :
    ∃ r, BackwardCompute l inputs outputs deltas prevDeltas gradWeights gradBiases = some r ∧
      r.layer = l ∧
      (r.prevDeltas.length = prevDeltas.length ∧
        (∀ b, (r.prevDeltas.getD b []).length = (prevDeltas.getD b []).length) ∧
        ∀ b i, entry r.prevDeltas b i = if b < inputs.length ∧ i < l.mInputsCount then
            ∑ o in Finset.range l.mOutputsCount,
              entry deltas b o * l.mWeights.getD (o * l.mInputsCount + i) 0
          else entry prevDeltas b i) ∧
      (r.gradWeights.length = gradWeights.length ∧
        ∀ k, r.gradWeights.getD k 0 = gradWeights.getD k 0 +
          if k < l.mOutputsCount * l.mInputsCount then
            ∑ b in Finset.range inputs.length,
              entry deltas b (k / l.mInputsCount) * entry inputs b (k % l.mInputsCount)
          else 0) ∧
      (r.gradBiases.length = gradBiases.length ∧
        ∀ k, r.gradBiases.getD k 0 = gradBiases.getD k 0 +
          if k < l.mOutputsCount then ∑ b in Finset.range inputs.length, entry deltas b k
          else 0) := by
  obtain ⟨prev, h1, h1p⟩ := backwardSample_loop l inputs.length deltas prevDeltas hw hsz
    hdl hpl hd hp
  obtain ⟨gw, h2, h2p⟩ := gradWeightOutput_loop l inputs deltas gradWeights hdl hin hd hgw hgsz
  obtain ⟨gb, h3, h3p⟩ := gradBiasSample_loop l inputs.length deltas gradBiases hdl hd hgb
  refine ⟨⟨l, prev, gw.1, gb⟩, ?_, rfl, h1p, h2p, h3p⟩
  simp only [BackwardCompute, h1, h2, h3, Option.bind_eq_bind, Option.some_bind,
    Option.pure_def]

/-- `UpdateWeights` on updates that are long enough: it returns and adds entry by entry. -/
theorem UpdateWeights_spec (l : XFullyConnectedLayer float_t)
    (weightsUpdate biasesUpdate : fvector_t float_t)
    (hwu : l.mWeights.length ≤ weightsUpdate.length)
    (hbu : l.mBiases.length ≤ biasesUpdate.length) :
    ∃ r, UpdateWeights l weightsUpdate biasesUpdate = some r ∧
      r.mInputsCount = l.mInputsCount ∧ r.mOutputsCount = l.mOutputsCount ∧
      r.mWeights.length = l.mWeights.length ∧ r.mBiases.length = l.mBiases.length ∧
      (∀ k, k < l.mWeights.length →
        r.mWeights.getD k 0 = l.mWeights.getD k 0 + weightsUpdate.getD k 0) ∧
      (∀ o, o < l.mBiases.length →
        r.mBiases.getD o 0 = l.mBiases.getD o 0 + biasesUpdate.getD o 0) := by
  obtain ⟨w, h1, h1l, h1v⟩ := update_loop weightsUpdate l.mWeights l.mWeights.length
    (le_refl _) hwu
  obtain ⟨b, h2, h2l, h2v⟩ := update_loop biasesUpdate l.mBiases l.mBiases.length
    (le_refl _) hbu
  refine ⟨{ l with mWeights := w, mBiases := b }, ?_, rfl, rfl, h1l, h2l, ?_, ?_⟩
  · simp only [UpdateWeights, h1, h2, Option.bind_eq_bind, Option.some_bind, Option.pure_def]
  · intro k hk
    show w.getD k 0 = _
    rw [h1v k, if_pos hk]
  · intro o ho
    show b.getD o 0 = _
    rw [h2v o, if_pos ho]

theorem getD_length_of_mem {α : Type} (m : List (List α)) (n : Nat)
    (h : ∀ v ∈ m, v.length = n) (b : Nat) (hb : b < m.length) : (m.getD b []).length = n := by
  rw [List.getD_eq_getElem _ _ hb]
  exact h _ (List.getElem_mem hb)

theorem mem_length_of_getD {α : Type} (m : List (List α)) (n : Nat)
    (h : ∀ b, b < m.length → (m.getD b []).length = n) : ∀ v ∈ m, v.length = n := by
  intro v hv
  obtain ⟨b, hb, rfl⟩ := List.getElem_of_mem hv
  rw [← List.getD_eq_getElem m [] hb]
  exact h b hb

theorem ext_getD (v w : fvector_t float_t) (hl : v.length = w.length)
    (h : ∀ k, k < v.length → v.getD k 0 = w.getD k 0) : v = w := by
  apply List.ext_getElem hl
  intro k h1 h2
  have := h k h1
  rwa [List.getD_eq_getElem _ _ h1, List.getD_eq_getElem _ _ h2] at this

theorem ext_entry (m m2 : List (fvector_t float_t)) (hl : m.length = m2.length)
    (hr : ∀ b, b < m.length → (m.getD b []).length = (m2.getD b []).length)
    (h : ∀ b i, b < m.length → i < (m.getD b []).length → entry m b i = entry m2 b i) :
    m = m2 := by
  apply List.ext_getElem hl
  intro b h1 h2
  have e1 := List.getD_eq_getElem m [] h1
  have e2 := List.getD_eq_getElem m2 [] h2
  rw [← e1, ← e2]
  exact ext_getD _ _ (hr b h1) (fun i hi => h b i h1 hi)

end Loops

section Claims

variable {float_t : Type} [CommRing float_t]

/-! ## The claims -/

theorem index_lt (O I o i : Nat) (ho : o < O) (hi : i < I) : o * I + i < O * I := by
  have hle : (o + 1) * I ≤ O * I := Nat.mul_le_mul_right _ ho
  have hex : (o + 1) * I = o * I + I := by ring
  omega

theorem index_div (I o i : Nat) (hi : i < I) : (o * I + i) / I = o := by
  have hex : (o + 1) * I = o * I + I := by ring
  exact Nat.div_eq_of_lt_le (by omega) (by omega)

theorem index_mod (I o i : Nat) (hi : i < I) : (o * I + i) % I = i := by
  rw [Nat.add_comm, Nat.add_mul_mod_self_right, Nat.mod_eq_of_lt hi]

theorem IsBatch.getD_length {α : Type} {m : List (fvector_t α)} {count len : Nat}
    (h : IsBatch m count len) (b : Nat) (hb : b < count) : (m.getD b []).length = len :=
  getD_length_of_mem m len h.2 b (by rw [h.1]; exact hb)

/-- C1: on a well shaped layer and a batch of `B` inputs and `B` outputs, `ForwardCompute`
returns, and afterwards `output[b][o] = bias[o] + Σ_i weights[o * InputsCount + i] * input[b][i]`
for every sample `b` and output index `o`, whatever the output buffers held on entry. -/
theorem ForwardCompute_affine (l : XFullyConnectedLayer float_t)
    (inputs outputs : List (fvector_t float_t)) (B : Nat)
    (hl : l.WellShaped) (hin : IsBatch inputs B l.mInputsCount)
    (hout : IsBatch outputs B l.mOutputsCount) :
    ∃ r, ForwardCompute l inputs outputs = some r ∧ IsBatch r.2 B l.mOutputsCount ∧
      ∀ b o, b < B → o < l.mOutputsCount →
        entry r.2 b o = l.mBiases.getD o 0 + ∑ i in Finset.range l.mInputsCount,
          l.mWeights.getD (o * l.mInputsCount + i) 0 * entry inputs b i := by
  obtain ⟨hw, hb, hsz⟩ := hl
  obtain ⟨outs, h1, h2, h3, h4⟩ := ForwardCompute_spec l inputs outputs hw hb hsz
    (by rw [hin.1, hout.1])
    (fun b hb => le_of_eq (hin.getD_length b (by rw [← hin.1]; exact hb)).symm)
    (fun b hb => le_of_eq (hout.getD_length b (by rw [← hin.1]; exact hb)).symm)
  refine ⟨(l, outs), h1, ⟨by rw [h2, hout.1], ?_⟩, ?_⟩
  · apply mem_length_of_getD
    intro b hb
    rw [h3 b]
    exact hout.getD_length b (by rw [← hout.1, ← h2]; exact hb)
  · intro b o hb ho
    show entry outs b o = _
    rw [h4 b o, if_pos ⟨by rw [hin.1]; exact hb, ho⟩]

/-- Witness of C1, the worked example: weights 0.5 and -0.5, bias 0.1, input (2, 4) give
output -0.9, here from an output buffer that held 7. -/
theorem ForwardCompute_affine_witness :
    exampleLayer.WellShaped ∧ IsBatch [[(2 : ℚ), 4]] 1 exampleLayer.mInputsCount ∧
      IsBatch [[(7 : ℚ)]] 1 exampleLayer.mOutputsCount ∧
      ∃ r, ForwardCompute exampleLayer [[2, 4]] [[7]] = some r ∧ entry r.2 0 0 = -9 / 10 := by
  have hl : exampleLayer.WellShaped := by
    simp [XFullyConnectedLayer.WellShaped, exampleLayer]
  have hin : IsBatch [[(2 : ℚ), 4]] 1 exampleLayer.mInputsCount := by
    simp [IsBatch, exampleLayer]
  have hout : IsBatch [[(7 : ℚ)]] 1 exampleLayer.mOutputsCount := by
    simp [IsBatch, exampleLayer]
  obtain ⟨r, h, _, hv⟩ := ForwardCompute_affine exampleLayer [[2, 4]] [[7]] 1 hl hin hout
  refine ⟨hl, hin, hout, r, h, ?_⟩
  rw [hv 0 0 (by norm_num) (by norm_num [exampleLayer])]
  norm_num [exampleLayer, entry, Finset.sum_range_succ]

/-- The hypotheses of the claims on `BackwardCompute` give those of `BackwardCompute_spec`. -/
theorem BackwardCompute_shaped (l : XFullyConnectedLayer float_t)
    (inputs outputs deltas prevDeltas : List (fvector_t float_t))
    (gradWeights gradBiases : fvector_t float_t) (B : Nat)
    (hl : l.WellShaped) (hin : IsBatch inputs B l.mInputsCount)
    (hd : IsBatch deltas B l.mOutputsCount) (hp : IsBatch prevDeltas B l.mInputsCount)
    (hgw : gradWeights.length = l.mOutputsCount * l.mInputsCount)
    (hgb : gradBiases.length = l.mOutputsCount) :
    ∃ r, BackwardCompute l inputs outputs deltas prevDeltas gradWeights gradBiases = some r ∧
      r.layer = l ∧
      (r.prevDeltas.length = prevDeltas.length ∧
        (∀ b, (r.prevDeltas.getD b []).length = (prevDeltas.getD b []).length) ∧
        ∀ b i, entry r.prevDeltas b i = if b < inputs.length ∧ i < l.mInputsCount then
            ∑ o in Finset.range l.mOutputsCount,
              entry deltas b o * l.mWeights.getD (o * l.mInputsCount + i) 0
          else entry prevDeltas b i) ∧
      (r.gradWeights.length = gradWeights.length ∧
        ∀ k, r.gradWeights.getD k 0 = gradWeights.getD k 0 +
          if k < l.mOutputsCount * l.mInputsCount then
            ∑ b in Finset.range inputs.length,
              entry deltas b (k / l.mInputsCount) * entry inputs b (k % l.mInputsCount)
          else 0) ∧
      (r.gradBiases.length = gradBiases.length ∧
        ∀ k, r.gradBiases.getD k 0 = gradBiases.getD k 0 +
          if k < l.mOutputsCount then ∑ b in Finset.range inputs.length, entry deltas b k
          else 0) := by
  obtain ⟨hw, _, hsz⟩ := hl
  exact BackwardCompute_spec l inputs outputs deltas prevDeltas gradWeights gradBiases hw hsz
    (by rw [hin.1, hd.1]) (by rw [hin.1, hp.1])
    (fun b hb => le_of_eq (hin.getD_length b (by rw [← hin.1]; exact hb)).symm)
    (fun b hb => le_of_eq (hd.getD_length b (by rw [← hin.1]; exact hb)).symm)
    (fun b hb => le_of_eq (hp.getD_length b (by rw [← hin.1]; exact hb)).symm)
    (le_of_eq hgw.symm) (by rw [hgw, ← hw]; exact hsz) (le_of_eq hgb.symm)

/-- C2: on a well shaped batch `BackwardCompute` returns, and afterwards
`prevDelta[b][i] = Σ_o delta[b][o] * weights[o * InputsCount + i]` for every sample `b` and input
index `i`, whatever the `prevDeltas` buffers held on entry. -/
theorem BackwardCompute_prevDelta (l : XFullyConnectedLayer float_t)
    (inputs outputs deltas prevDeltas : List (fvector_t float_t))
    (gradWeights gradBiases : fvector_t float_t) (B : Nat)
    (hl : l.WellShaped) (hin : IsBatch inputs B l.mInputsCount)
    (hd : IsBatch deltas B l.mOutputsCount) (hp : IsBatch prevDeltas B l.mInputsCount)
    (hgw : gradWeights.length = l.mOutputsCount * l.mInputsCount)
    (hgb : gradBiases.length = l.mOutputsCount) :
    ∃ r, BackwardCompute l inputs outputs deltas prevDeltas gradWeights gradBiases = some r ∧
      IsBatch r.prevDeltas B l.mInputsCount ∧
      ∀ b i, b < B → i < l.mInputsCount →
        entry r.prevDeltas b i = ∑ o in Finset.range l.mOutputsCount,
          entry deltas b o * l.mWeights.getD (o * l.mInputsCount + i) 0 := by
  obtain ⟨r, h, _, ⟨h1, h2, h3⟩, _, _⟩ := BackwardCompute_shaped l inputs outputs deltas
    prevDeltas gradWeights gradBiases B hl hin hd hp hgw hgb
  refine ⟨r, h, ⟨by rw [h1, hp.1], ?_⟩, ?_⟩
  · apply mem_length_of_getD
    intro b hb
    rw [h2 b]
    exact hp.getD_length b (by rw [← hp.1, ← h1]; exact hb)
  · intro b i hb hi
    rw [h3 b i, if_pos ⟨by rw [hin.1]; exact hb, hi⟩]

/-- C3: on a well shaped batch of `B` samples `BackwardCompute` returns, and afterwards
`gradWeights[o * InputsCount + i]` is its initial value plus `Σ_b delta[b][o] * input[b][i]`;
for a single sample and a zero initial buffer it is `delta[o] * input[i]`. -/
theorem BackwardCompute_gradWeights (l : XFullyConnectedLayer float_t)
    (inputs outputs deltas prevDeltas : List (fvector_t float_t))
    (gradWeights gradBiases : fvector_t float_t) (B : Nat)
    (hl : l.WellShaped) (hin : IsBatch inputs B l.mInputsCount)
    (hd : IsBatch deltas B l.mOutputsCount) (hp : IsBatch prevDeltas B l.mInputsCount)
    (hgw : gradWeights.length = l.mOutputsCount * l.mInputsCount)
    (hgb : gradBiases.length = l.mOutputsCount) :
    ∃ r, BackwardCompute l inputs outputs deltas prevDeltas gradWeights gradBiases = some r ∧
      r.gradWeights.length = l.mOutputsCount * l.mInputsCount ∧
      (∀ o i, o < l.mOutputsCount → i < l.mInputsCount →
        r.gradWeights.getD (o * l.mInputsCount + i) 0 =
          gradWeights.getD (o * l.mInputsCount + i) 0 +
            ∑ b in Finset.range B, entry deltas b o * entry inputs b i) ∧
      (B = 1 → (∀ k, gradWeights.getD k 0 = 0) →
        ∀ o i, o < l.mOutputsCount → i < l.mInputsCount →
          r.gradWeights.getD (o * l.mInputsCount + i) 0 = entry deltas 0 o * entry inputs 0 i) := by
  obtain ⟨r, h, _, _, ⟨h1, h2⟩, _⟩ := BackwardCompute_shaped l inputs outputs deltas
    prevDeltas gradWeights gradBiases B hl hin hd hp hgw hgb
  have key : ∀ o i, o < l.mOutputsCount → i < l.mInputsCount →
      r.gradWeights.getD (o * l.mInputsCount + i) 0 =
        gradWeights.getD (o * l.mInputsCount + i) 0 +
          ∑ b in Finset.range B, entry deltas b o * entry inputs b i := by
    intro o i ho hi
    rw [h2, if_pos (index_lt _ _ o i ho hi), index_div _ o i hi, index_mod _ o i hi, hin.1]
  refine ⟨r, h, by rw [h1, hgw], key, ?_⟩
  intro hB hz o i ho hi
  rw [key o i ho hi, hz, hB, Finset.sum_range_one, zero_add]

/-- C4: on a well shaped batch of `B` samples `BackwardCompute` returns, and afterwards
`gradBiases[o]` is its initial value plus `Σ_b delta[b][o]`, for every output index `o`. -/
theorem BackwardCompute_gradBiases (l : XFullyConnectedLayer float_t)
    (inputs outputs deltas prevDeltas : List (fvector_t float_t))
    (gradWeights gradBiases : fvector_t float_t) (B : Nat)
    (hl : l.WellShaped) (hin : IsBatch inputs B l.mInputsCount)
    (hd : IsBatch deltas B l.mOutputsCount) (hp : IsBatch prevDeltas B l.mInputsCount)
    (hgw : gradWeights.length = l.mOutputsCount * l.mInputsCount)
    (hgb : gradBiases.length = l.mOutputsCount) :
    ∃ r, BackwardCompute l inputs outputs deltas prevDeltas gradWeights gradBiases = some r ∧
      r.gradBiases.length = l.mOutputsCount ∧
      ∀ o, o < l.mOutputsCount →
        r.gradBiases.getD o 0 = gradBiases.getD o 0 + ∑ b in Finset.range B, entry deltas b o := by
  obtain ⟨r, h, _, _, _, ⟨h1, h2⟩⟩ := BackwardCompute_shaped l inputs outputs deltas
    prevDeltas gradWeights gradBiases B hl hin hd hp hgw hgb
  refine ⟨r, h, by rw [h1, hgb], ?_⟩
  intro o ho
  rw [h2, if_pos ho, hin.1]

/-- C5: whenever `ForwardCompute` or `BackwardCompute` returns, the weight matrix and the bias
vector of the layer it leaves behind are those it was called on. -/
theorem compute_keeps_parameters (l : XFullyConnectedLayer float_t)
    (inputs outputs deltas prevDeltas : List (fvector_t float_t))
    (gradWeights gradBiases : fvector_t float_t) :
    (∀ r, ForwardCompute l inputs outputs = some r →
      r.1.mWeights = l.mWeights ∧ r.1.mBiases = l.mBiases) ∧
    (∀ r, BackwardCompute l inputs outputs deltas prevDeltas gradWeights gradBiases = some r →
      r.layer.mWeights = l.mWeights ∧ r.layer.mBiases = l.mBiases) := by
  constructor
  · intro r h
    simp only [ForwardCompute, Option.bind_eq_bind, Option.pure_def, Option.bind_eq_some] at h
    obtain ⟨outs, _, h⟩ := h
    cases h
    exact ⟨rfl, rfl⟩
  · intro r h
    simp only [BackwardCompute, Option.bind_eq_bind, Option.pure_def, Option.bind_eq_some] at h
    obtain ⟨p, _, g, _, b, _, h⟩ := h
    cases h
    exact ⟨rfl, rfl⟩

theorem exampleLayer_wellShaped : exampleLayer.WellShaped := by
  simp [XFullyConnectedLayer.WellShaped, exampleLayer]

theorem example_inputs : IsBatch [[(2 : ℚ), 4]] 1 exampleLayer.mInputsCount := by
  simp [IsBatch, exampleLayer]

theorem example_deltas : IsBatch [[(3 : ℚ)]] 1 exampleLayer.mOutputsCount := by
  simp [IsBatch, exampleLayer]

theorem example_prevDeltas : IsBatch [[(9 : ℚ), 9]] 1 exampleLayer.mInputsCount := by
  simp [IsBatch, exampleLayer]

/-- Witness of C2: with weights 0.5 and -0.5 and delta 3 the input gradient is (1.5, -1.5),
written over a buffer that held (9, 9). -/
theorem BackwardCompute_prevDelta_witness :
    ∃ r, BackwardCompute exampleLayer [[2, 4]] [] [[3]] [[9, 9]] [0, 0] [0] = some r ∧
      entry r.prevDeltas 0 0 = 3 / 2 ∧ entry r.prevDeltas 0 1 = -3 / 2 := by
  obtain ⟨r, h, _, hv⟩ := BackwardCompute_prevDelta exampleLayer [[2, 4]] [] [[3]] [[9, 9]]
    [0, 0] [0] 1 exampleLayer_wellShaped example_inputs example_deltas example_prevDeltas
    (by simp [exampleLayer]) (by simp [exampleLayer])
  refine ⟨r, h, ?_, ?_⟩
  · rw [hv 0 0 (by norm_num) (by norm_num [exampleLayer])]
    norm_num [exampleLayer, entry, Finset.sum_range_succ]
  · rw [hv 0 1 (by norm_num) (by norm_num [exampleLayer])]
    norm_num [exampleLayer, entry, Finset.sum_range_succ]

/-- Witness of C3: delta 3 and input (2, 4) add (6, 12) to a weight gradient that held
(1, 1). -/
theorem BackwardCompute_gradWeights_witness :
    ∃ r, BackwardCompute exampleLayer [[2, 4]] [] [[3]] [[9, 9]] [1, 1] [0] = some r ∧
      r.gradWeights.getD 0 0 = 7 ∧ r.gradWeights.getD 1 0 = 13 := by
  obtain ⟨r, h, _, hv, _⟩ := BackwardCompute_gradWeights exampleLayer [[2, 4]] [] [[3]]
    [[9, 9]] [1, 1] [0] 1 exampleLayer_wellShaped example_inputs example_deltas
    example_prevDeltas (by simp [exampleLayer]) (by simp [exampleLayer])
  refine ⟨r, h, ?_, ?_⟩
  · have := hv 0 0 (by norm_num [exampleLayer]) (by norm_num [exampleLayer])
    simp only [zero_mul, zero_add] at this
    rw [this]
    norm_num [entry, Finset.sum_range_succ]
  · have := hv 0 1 (by norm_num [exampleLayer]) (by norm_num [exampleLayer])
    simp only [zero_mul, zero_add] at this
    rw [this]
    norm_num [entry, Finset.sum_range_succ]

/-- Witness of C4: delta 3 adds 3 to a bias gradient that held 5. -/
theorem BackwardCompute_gradBiases_witness :
    ∃ r, BackwardCompute exampleLayer [[2, 4]] [] [[3]] [[9, 9]] [0, 0] [5] = some r ∧
      r.gradBiases.getD 0 0 = 8 := by
  obtain ⟨r, h, _, hv⟩ := BackwardCompute_gradBiases exampleLayer [[2, 4]] [] [[3]]
    [[9, 9]] [0, 0] [5] 1 exampleLayer_wellShaped example_inputs example_deltas
    example_prevDeltas (by simp [exampleLayer]) (by simp [exampleLayer])
  refine ⟨r, h, ?_⟩
  rw [hv 0 (by norm_num [exampleLayer])]
  norm_num [entry, Finset.sum_range_succ]

/-- Witness of C5: both calls return on the worked example and leave its weights and bias. -/
theorem compute_keeps_parameters_witness :
    (∃ r, ForwardCompute exampleLayer [[2, 4]] [[7]] = some r ∧
      r.1.mWeights = [1 / 2, -1 / 2] ∧ r.1.mBiases = [1 / 10]) ∧
    (∃ r, BackwardCompute exampleLayer [[2, 4]] [[7]] [[3]] [[9, 9]] [0, 0] [0] = some r ∧
      r.layer.mWeights = [1 / 2, -1 / 2] ∧ r.layer.mBiases = [1 / 10]) := by
  have key := compute_keeps_parameters exampleLayer [[2, 4]] [[7]] [[3]] [[9, 9]] [0, 0] [0]
  obtain ⟨hw, hb, hsz⟩ := exampleLayer_wellShaped
  obtain ⟨outs, hf, _⟩ := ForwardCompute_spec exampleLayer [[2, 4]] [[7]] hw hb hsz
    (by simp) (by simp [exampleLayer]) (by simp [exampleLayer])
  obtain ⟨r, hr, _⟩ := BackwardCompute_shaped exampleLayer [[2, 4]] [[7]] [[3]] [[9, 9]]
    [0, 0] [0] 1 exampleLayer_wellShaped example_inputs example_deltas example_prevDeltas
    (by simp [exampleLayer]) (by simp [exampleLayer])
  exact ⟨⟨_, hf, key.1 _ hf⟩, ⟨r, hr, key.2 r hr⟩⟩

theorem getD_replicate_zero (n k : Nat) : (List.replicate n (0 : float_t)).getD k 0 = 0 := by
  rw [List.getD_eq_getElem?_getD, List.getElem?_replicate]
  split <;> rfl

theorem getD_map_two_mul (v : fvector_t float_t) (k : Nat) :
    (v.map (fun g => 2 * g)).getD k 0 = 2 * v.getD k 0 := by
  rw [List.getD_eq_getElem?_getD, List.getD_eq_getElem?_getD, List.getElem?_map]
  cases v[k]? <;> simp

theorem IsBatch.of_getD {α : Type} {m m2 : List (fvector_t α)} {count len : Nat}
    (h : IsBatch m count len) (hl : m2.length = m.length)
    (hr : ∀ b, (m2.getD b []).length = (m.getD b []).length) : IsBatch m2 count len := by
  refine ⟨by rw [hl, h.1], ?_⟩
  apply mem_length_of_getD
  intro b hb
  rw [hr b]
  exact h.getD_length b (by rw [← h.1, ← hl]; exact hb)

/-- C6: from zeroed accumulators, a second `BackwardCompute` on the same batch and buffers
doubles `gradWeights` and `gradBiases` and leaves `prevDeltas` as the first call wrote them. -/
theorem BackwardCompute_twice (l : XFullyConnectedLayer float_t)
    (inputs outputs deltas prevDeltas : List (fvector_t float_t)) (B : Nat)
    (hl : l.WellShaped) (hin : IsBatch inputs B l.mInputsCount)
    (hd : IsBatch deltas B l.mOutputsCount) (hp : IsBatch prevDeltas B l.mInputsCount) :
    ∃ r1 r2,
      BackwardCompute l inputs outputs deltas prevDeltas
        (List.replicate (l.mOutputsCount * l.mInputsCount) 0)
        (List.replicate l.mOutputsCount 0) = some r1 ∧
      BackwardCompute r1.layer inputs outputs deltas r1.prevDeltas r1.gradWeights r1.gradBiases =
        some r2 ∧
      r2.gradWeights = r1.gradWeights.map (fun g => 2 * g) ∧
      r2.gradBiases = r1.gradBiases.map (fun g => 2 * g) ∧
      r2.prevDeltas = r1.prevDeltas := by
  obtain ⟨r1, e1, hl1, ⟨p1, p2, p3⟩, ⟨w1, w2⟩, ⟨b1, b2⟩⟩ := BackwardCompute_shaped l inputs
    outputs deltas prevDeltas (List.replicate (l.mOutputsCount * l.mInputsCount) 0)
    (List.replicate l.mOutputsCount 0) B hl hin hd hp (by simp) (by simp)
  obtain ⟨r2, e2, _, ⟨q1, q2, q3⟩, ⟨v1, v2⟩, ⟨c1, c2⟩⟩ := BackwardCompute_shaped l inputs
    outputs deltas r1.prevDeltas r1.gradWeights r1.gradBiases B hl hin hd (hp.of_getD p1 p2)
    (by rw [w1]; simp) (by rw [b1]; simp)
  refine ⟨r1, r2, e1, by rw [hl1]; exact e2, ?_, ?_, ?_⟩
  · apply ext_getD _ _ (by rw [v1, List.length_map])
    intro k _
    rw [getD_map_two_mul, v2 k, w2 k, getD_replicate_zero]
    ring
  · apply ext_getD _ _ (by rw [c1, List.length_map])
    intro k _
    rw [getD_map_two_mul, c2 k, b2 k, getD_replicate_zero]
    ring
  · apply ext_entry _ _ q1 (fun b _ => q2 b)
    intro b i _ _
    rw [q3 b i]
    split
    · rename_i h
      rw [p3 b i, if_pos h]
    · rfl

/-- Witness of C6: the worked example with the single delta 3, from accumulators (0, 0)
and 0. -/
theorem BackwardCompute_twice_witness :
    ∃ r1 r2,
      BackwardCompute exampleLayer [[2, 4]] [] [[3]] [[9, 9]] [0, 0] [0] = some r1 ∧
      BackwardCompute r1.layer [[2, 4]] [] [[3]] r1.prevDeltas r1.gradWeights r1.gradBiases =
        some r2 ∧
      r2.gradWeights = r1.gradWeights.map (fun g => 2 * g) ∧
      r2.gradBiases = r1.gradBiases.map (fun g => 2 * g) ∧
      r2.prevDeltas = r1.prevDeltas :=
  BackwardCompute_twice exampleLayer [[2, 4]] [] [[3]] [[9, 9]] 1 exampleLayer_wellShaped
    example_inputs example_deltas example_prevDeltas

theorem entry_append (m m2 : List (fvector_t float_t)) (b i : Nat) :
    entry (m ++ m2) b i = if b < m.length then entry m b i else entry m2 (b - m.length) i := by
  unfold entry
  simp only [List.getD_eq_getElem?_getD]
  split
  · rename_i h
    rw [List.getElem?_append_left h]
  · rename_i h
    rw [List.getElem?_append_right (le_of_not_lt h)]

theorem IsBatch.append {α : Type} {m m2 : List (fvector_t α)} {c c2 len : Nat}
    (h : IsBatch m c len) (h2 : IsBatch m2 c2 len) : IsBatch (m ++ m2) (c + c2) len := by
  refine ⟨by rw [List.length_append, h.1, h2.1], ?_⟩
  intro v hv
  rcases List.mem_append.1 hv with hv | hv
  · exact h.2 v hv
  · exact h2.2 v hv

theorem sum_entry_append (a a2 c c2 : List (fvector_t float_t)) (nA nB : Nat)
    (ha : a.length = nA) (hc : c.length = nA) (o i : Nat) :
    ∑ b in Finset.range (nA + nB), entry (a ++ a2) b o * entry (c ++ c2) b i =
      ∑ b in Finset.range nA, entry a b o * entry c b i +
        ∑ b in Finset.range nB, entry a2 b o * entry c2 b i := by
  rw [Finset.sum_range_add]
  congr 1
  · apply Finset.sum_congr rfl
    intro b hb
    have hb := Finset.mem_range.1 hb
    rw [entry_append, entry_append, if_pos (by omega), if_pos (by omega)]
  · apply Finset.sum_congr rfl
    intro b _
    rw [entry_append, entry_append, if_neg (by omega), if_neg (by omega), ha, hc,
      Nat.add_sub_cancel_left]

theorem sum_entry_append_one (a a2 : List (fvector_t float_t)) (nA nB : Nat)
    (ha : a.length = nA) (o : Nat) :
    ∑ b in Finset.range (nA + nB), entry (a ++ a2) b o =
      ∑ b in Finset.range nA, entry a b o + ∑ b in Finset.range nB, entry a2 b o := by
  rw [Finset.sum_range_add]
  congr 1
  · apply Finset.sum_congr rfl
    intro b hb
    have hb := Finset.mem_range.1 hb
    rw [entry_append, if_pos (by omega)]
  · apply Finset.sum_congr rfl
    intro b _
    rw [entry_append, if_neg (by omega), ha, Nat.add_sub_cancel_left]

/-- C7: `BackwardCompute` on batch A and then on batch B, into the same accumulators, leaves
`gradWeights` and `gradBiases` as one call on the batch A followed by B does from the same
initial accumulators. -/
theorem BackwardCompute_additive (l : XFullyConnectedLayer float_t)
    (inputsA outputsA deltasA prevDeltasA : List (fvector_t float_t))
    (inputsB outputsB deltasB prevDeltasB : List (fvector_t float_t))
    (gradWeights gradBiases : fvector_t float_t) (nA nB : Nat)
    (hl : l.WellShaped)
    (hinA : IsBatch inputsA nA l.mInputsCount) (hdA : IsBatch deltasA nA l.mOutputsCount)
    (hpA : IsBatch prevDeltasA nA l.mInputsCount)
    (hinB : IsBatch inputsB nB l.mInputsCount) (hdB : IsBatch deltasB nB l.mOutputsCount)
    (hpB : IsBatch prevDeltasB nB l.mInputsCount)
    (hgw : gradWeights.length = l.mOutputsCount * l.mInputsCount)
    (hgb : gradBiases.length = l.mOutputsCount) :
    ∃ rA rB rAB,
      BackwardCompute l inputsA outputsA deltasA prevDeltasA gradWeights gradBiases = some rA ∧
      BackwardCompute rA.layer inputsB outputsB deltasB prevDeltasB
        rA.gradWeights rA.gradBiases = some rB ∧
      BackwardCompute l (inputsA ++ inputsB) (outputsA ++ outputsB) (deltasA ++ deltasB)
        (prevDeltasA ++ prevDeltasB) gradWeights gradBiases = some rAB ∧
      rB.gradWeights = rAB.gradWeights ∧ rB.gradBiases = rAB.gradBiases := by
  obtain ⟨rA, eA, hlA, _, ⟨w1, w2⟩, ⟨b1, b2⟩⟩ := BackwardCompute_shaped l inputsA outputsA
    deltasA prevDeltasA gradWeights gradBiases nA hl hinA hdA hpA hgw hgb
  obtain ⟨rB, eB, _, _, ⟨v1, v2⟩, ⟨c1, c2⟩⟩ := BackwardCompute_shaped l inputsB outputsB
    deltasB prevDeltasB rA.gradWeights rA.gradBiases nB hl hinB hdB hpB (by rw [w1, hgw])
    (by rw [b1, hgb])
  obtain ⟨rAB, eAB, _, _, ⟨u1, u2⟩, ⟨d1, d2⟩⟩ := BackwardCompute_shaped l (inputsA ++ inputsB)
    (outputsA ++ outputsB) (deltasA ++ deltasB) (prevDeltasA ++ prevDeltasB) gradWeights
    gradBiases (nA + nB) hl (hinA.append hinB) (hdA.append hdB) (hpA.append hpB) hgw hgb
  refine ⟨rA, rB, rAB, eA, by rw [hlA]; exact eB, eAB, ?_, ?_⟩
  · apply ext_getD _ _ (by rw [v1, w1, u1])
    intro k _
    rw [v2 k, w2 k, u2 k, List.length_append, hinA.1, hinB.1]
    split
    · rw [sum_entry_append _ _ _ _ nA nB hdA.1 hinA.1, add_assoc]
    · simp
  · apply ext_getD _ _ (by rw [c1, b1, d1])
    intro k _
    rw [c2 k, b2 k, d2 k, List.length_append, hinA.1, hinB.1]
    split
    · rw [sum_entry_append_one _ _ nA nB hdA.1, add_assoc]
    · simp

/-- Witness of C7: the worked example, batch A the sample (2, 4) with delta 3 and batch B the
sample (1, 1) with delta 5. -/
theorem BackwardCompute_additive_witness :
    ∃ rA rB rAB,
      BackwardCompute exampleLayer [[2, 4]] [] [[3]] [[9, 9]] [0, 0] [0] = some rA ∧
      BackwardCompute rA.layer [[1, 1]] [] [[5]] [[8, 8]] rA.gradWeights rA.gradBiases =
        some rB ∧
      BackwardCompute exampleLayer ([[2, 4]] ++ [[1, 1]]) ([] ++ []) ([[3]] ++ [[5]])
        ([[9, 9]] ++ [[8, 8]]) [0, 0] [0] = some rAB ∧
      rB.gradWeights = rAB.gradWeights ∧ rB.gradBiases = rAB.gradBiases :=
  BackwardCompute_additive exampleLayer [[2, 4]] [] [[3]] [[9, 9]] [[1, 1]] [] [[5]] [[8, 8]]
    [0, 0] [0] 1 1 exampleLayer_wellShaped example_inputs example_deltas example_prevDeltas
    (by simp [IsBatch, exampleLayer]) (by simp [IsBatch, exampleLayer])
    (by simp [IsBatch, exampleLayer]) (by simp [exampleLayer]) (by simp [exampleLayer])

/-- C8: on a well shaped layer, with `weightsUpdate` of size `OutputsCount * InputsCount` and
`biasesUpdate` of size `OutputsCount`, `UpdateWeights` returns, every weight and every bias
is its old value plus the update at its index, and both buffers keep their sizes. -/
theorem UpdateWeights_elementwise (l : XFullyConnectedLayer float_t)
    (weightsUpdate biasesUpdate : fvector_t float_t)
    (hl : l.WellShaped)
    (hwu : weightsUpdate.length = l.mOutputsCount * l.mInputsCount)
    (hbu : biasesUpdate.length = l.mOutputsCount) :
    ∃ r, UpdateWeights l weightsUpdate biasesUpdate = some r ∧
      (∀ k, k < l.mOutputsCount * l.mInputsCount →
        r.mWeights.getD k 0 = l.mWeights.getD k 0 + weightsUpdate.getD k 0) ∧
      (∀ o, o < l.mOutputsCount →
        r.mBiases.getD o 0 = l.mBiases.getD o 0 + biasesUpdate.getD o 0) ∧
      r.mWeights.length = l.mWeights.length ∧ r.mBiases.length = l.mBiases.length := by
  obtain ⟨hw, hb, _⟩ := hl
  obtain ⟨r, h, _, _, h1, h2, h3, h4⟩ := UpdateWeights_spec l weightsUpdate biasesUpdate
    (by rw [hw, hwu]) (by rw [hb, hbu])
  exact ⟨r, h, fun k hk => h3 k (by rw [hw]; exact hk), fun o ho => h4 o (by rw [hb]; exact ho),
    h1, h2⟩

/-- Witness of C8: adding (1, 2) and 3 to the worked example gives weights (1.5, 1.5) and
bias 3.1. -/
theorem UpdateWeights_elementwise_witness :
    ∃ r, UpdateWeights exampleLayer [1, 2] [3] = some r ∧
      r.mWeights.getD 0 0 = 3 / 2 ∧ r.mWeights.getD 1 0 = 3 / 2 ∧ r.mBiases.getD 0 0 = 31 / 10 := by
  obtain ⟨r, h, hw, hb, _⟩ := UpdateWeights_elementwise exampleLayer [1, 2] [3]
    exampleLayer_wellShaped (by simp [exampleLayer]) (by simp [exampleLayer])
  refine ⟨r, h, ?_, ?_, ?_⟩
  · rw [hw 0 (by norm_num [exampleLayer])]
    norm_num [exampleLayer]
  · rw [hw 1 (by norm_num [exampleLayer])]
    norm_num [exampleLayer]
  · rw [hb 0 (by norm_num [exampleLayer])]
    norm_num [exampleLayer]

theorem getD_map_neg (v : fvector_t float_t) (k : Nat) :
    (v.map Neg.neg).getD k 0 = - v.getD k 0 := by
  rw [List.getD_eq_getElem?_getD, List.getD_eq_getElem?_getD, List.getElem?_map]
  cases v[k]? <;> simp

/-- C9: on a well shaped layer and updates of the sizes of the buffers, `UpdateWeights` with
`(u_w, u_b)` and then with `(-u_w, -u_b)` returns the layer it started from. -/
theorem UpdateWeights_reversible (l : XFullyConnectedLayer float_t)
    (weightsUpdate biasesUpdate : fvector_t float_t)
    (hl : l.WellShaped)
    (hwu : weightsUpdate.length = l.mOutputsCount * l.mInputsCount)
    (hbu : biasesUpdate.length = l.mOutputsCount) :
    ∃ r1 r2, UpdateWeights l weightsUpdate biasesUpdate = some r1 ∧
      UpdateWeights r1 (weightsUpdate.map Neg.neg) (biasesUpdate.map Neg.neg) = some r2 ∧
      r2.mWeights = l.mWeights ∧ r2.mBiases = l.mBiases ∧ r2 = l := by
  obtain ⟨hw, hb, _⟩ := hl
  obtain ⟨r1, e1, i1, o1, w1, b1, hw1, hb1⟩ := UpdateWeights_spec l weightsUpdate biasesUpdate
    (by rw [hw, hwu]) (by rw [hb, hbu])
  obtain ⟨r2, e2, i2, o2, w2, b2, hw2, hb2⟩ := UpdateWeights_spec r1 (weightsUpdate.map Neg.neg)
    (biasesUpdate.map Neg.neg) (by rw [List.length_map, w1, hw, hwu])
    (by rw [List.length_map, b1, hb, hbu])
  have ew : r2.mWeights = l.mWeights := by
    apply ext_getD _ _ (by rw [w2, w1])
    intro k hk
    rw [hw2 k (by omega), hw1 k (by omega), getD_map_neg]
    ring
  have eb : r2.mBiases = l.mBiases := by
    apply ext_getD _ _ (by rw [b2, b1])
    intro k hk
    rw [hb2 k (by omega), hb1 k (by omega), getD_map_neg]
    ring
  refine ⟨r1, r2, e1, e2, ew, eb, ?_⟩
  cases r2
  cases l
  simp only at ew eb i2 o2 i1 o1
  simp only [XFullyConnectedLayer.mk.injEq]
  exact ⟨by rw [i2, i1], by rw [o2, o1], ew, eb⟩

/-- Witness of C9: the worked example updated by (1, 2) and 3, then by (-1, -2) and -3. -/
theorem UpdateWeights_reversible_witness :
    ∃ r1 r2, UpdateWeights exampleLayer [1, 2] [3] = some r1 ∧
      UpdateWeights r1 [-1, -2] [-3] = some r2 ∧
      r2.mWeights = [1 / 2, -1 / 2] ∧ r2.mBiases = [1 / 10] ∧ r2 = exampleLayer :=
  UpdateWeights_reversible exampleLayer [1, 2] [3] exampleLayer_wellShaped
    (by simp [exampleLayer]) (by simp [exampleLayer])

theorem getD_zipWith_add (x1 x2 : fvector_t float_t) (hx : x1.length = x2.length) (i : Nat) :
    (List.zipWith (fun a b => a + b) x1 x2).getD i 0 = x1.getD i 0 + x2.getD i 0 := by
  rw [List.getD_eq_getElem?_getD, List.getD_eq_getElem?_getD, List.getD_eq_getElem?_getD,
    List.getElem?_zipWith]
  by_cases hi : i < x1.length
  · rw [List.getElem?_eq_getElem hi, List.getElem?_eq_getElem (by omega)]
    rfl
  · rw [List.getElem?_eq_none (by omega), List.getElem?_eq_none (by omega)]
    simp

/-- C10: on a well shaped layer and two inputs `x1`, `x2` of length `InputsCount`, the three
`ForwardCompute` calls on `x1`, `x2` and `x1 + x2` return, and for every output index
`F(x1 + x2)[o] - bias[o] = (F(x1)[o] - bias[o]) + (F(x2)[o] - bias[o])`. -/
theorem ForwardCompute_linear (l : XFullyConnectedLayer float_t)
    (x1 x2 out1 out2 out12 : fvector_t float_t)
    (hl : l.WellShaped)
    (hx1 : x1.length = l.mInputsCount) (hx2 : x2.length = l.mInputsCount)
    (ho1 : out1.length = l.mOutputsCount) (ho2 : out2.length = l.mOutputsCount)
    (ho12 : out12.length = l.mOutputsCount) :
    ∃ r1 r2 r12, ForwardCompute l [x1] [out1] = some r1 ∧
      ForwardCompute l [x2] [out2] = some r2 ∧
      ForwardCompute l [List.zipWith (fun a b => a + b) x1 x2] [out12] = some r12 ∧
      ∀ o, o < l.mOutputsCount →
        entry r12.2 0 o - l.mBiases.getD o 0 =
          (entry r1.2 0 o - l.mBiases.getD o 0) + (entry r2.2 0 o - l.mBiases.getD o 0) := by
  obtain ⟨hw, hb, hsz⟩ := hl
  have one : ∀ (x out : fvector_t float_t), x.length = l.mInputsCount →
      out.length = l.mOutputsCount →
      ∃ r, ForwardCompute l [x] [out] = some r ∧ ∀ o, o < l.mOutputsCount →
        entry r.2 0 o = l.mBiases.getD o 0 + ∑ i in Finset.range l.mInputsCount,
          l.mWeights.getD (o * l.mInputsCount + i) 0 * x.getD i 0 := by
    intro x out hx ho
    obtain ⟨outs, h, _, _, hv⟩ := ForwardCompute_spec l [x] [out] hw hb hsz (le_refl _)
      (fun b hb => by
        have : b = 0 := by simpa using hb
        subst this
        exact le_of_eq hx.symm)
      (fun b hb => by
        have : b = 0 := by simpa using hb
        subst this
        exact le_of_eq ho.symm)
    refine ⟨(l, outs), h, ?_⟩
    intro o ho
    show entry outs 0 o = _
    rw [hv 0 o, if_pos ⟨by simp, ho⟩]
    rfl
  obtain ⟨r1, e1, v1⟩ := one x1 out1 hx1 ho1
  obtain ⟨r2, e2, v2⟩ := one x2 out2 hx2 ho2
  obtain ⟨r12, e12, v12⟩ := one (List.zipWith (fun a b => a + b) x1 x2) out12
    (by rw [List.length_zipWith, hx1, hx2, Nat.min_self]) ho12
  refine ⟨r1, r2, r12, e1, e2, e12, ?_⟩
  intro o ho
  rw [v1 o ho, v2 o ho, v12 o ho]
  simp only [getD_zipWith_add x1 x2 (by rw [hx1, hx2]), mul_add, Finset.sum_add_distrib]
  ring

/-- Witness of C10: the worked example on the inputs (2, 4) and (1, 1). -/
theorem ForwardCompute_linear_witness :
    ∃ r1 r2 r12, ForwardCompute exampleLayer [[2, 4]] [[7]] = some r1 ∧
      ForwardCompute exampleLayer [[1, 1]] [[7]] = some r2 ∧
      ForwardCompute exampleLayer [[3, 5]] [[7]] = some r12 ∧
      entry r12.2 0 0 - 1 / 10 = (entry r1.2 0 0 - 1 / 10) + (entry r2.2 0 0 - 1 / 10) := by
  obtain ⟨r1, r2, r12, e1, e2, e12, h⟩ := ForwardCompute_linear exampleLayer [2, 4] [1, 1]
    [7] [7] [7] exampleLayer_wellShaped (by simp [exampleLayer]) (by simp [exampleLayer])
    (by simp [exampleLayer]) (by simp [exampleLayer]) (by simp [exampleLayer])
  refine ⟨r1, r2, r12, e1, e2, ?_, ?_⟩
  · rw [← e12]
    norm_num
  · have := h 0 (by norm_num [exampleLayer])
    simpa [exampleLayer] using this

/-- C11, counterexample: on the worked example, whose layer has two inputs, a batch whose input
vector has three numbers is not rejected: the call returns and has overwritten the output
buffer, which held 7. -/
theorem ForwardCompute_rejects_counterexample :
    ¬ IsBatch [[(2 : ℚ), 4, 6]] 1 exampleLayer.mInputsCount ∧
      ForwardCompute exampleLayer [[2, 4, 6]] [[7]] = some (exampleLayer, [[-9 / 10]]) ∧
      [[(-9 / 10 : ℚ)]] ≠ [[7]] := by
  refine ⟨by simp [IsBatch, exampleLayer], ?_, by norm_num⟩
  simp [ForwardCompute, forwardSampleStep, forwardOutputStep, forwardInputStep, forLoop_step,
    forLoop_done, exampleLayer, store, wrap]
  norm_num [List.getElem_cons]

/-- C11, amended: `ForwardCompute` checks no shape.  When `outputs` has at least `inputs.size()`
entries, every input has at least `InputsCount` numbers and each of the first `inputs.size()`
outputs at least `OutputsCount`, the call returns, writes the affine map of the first
`InputsCount` numbers of each input into the entries `o < OutputsCount` of the first
`inputs.size()` outputs, and leaves every other entry of the output buffers. -/
theorem ForwardCompute_unchecked (l : XFullyConnectedLayer float_t)
    (inputs outputs : List (fvector_t float_t))
    (hl : l.WellShaped) (hlen : inputs.length ≤ outputs.length)
    (hin : ∀ b, b < inputs.length → l.mInputsCount ≤ (inputs.getD b []).length)
    (hout : ∀ b, b < inputs.length → l.mOutputsCount ≤ (outputs.getD b []).length) :
    ∃ r, ForwardCompute l inputs outputs = some r ∧
      r.2.length = outputs.length ∧
      (∀ b, (r.2.getD b []).length = (outputs.getD b []).length) ∧
      ∀ b o, entry r.2 b o = if b < inputs.length ∧ o < l.mOutputsCount then
          l.mBiases.getD o 0 + ∑ i in Finset.range l.mInputsCount,
            l.mWeights.getD (o * l.mInputsCount + i) 0 * entry inputs b i
        else entry outputs b o := by
  obtain ⟨hw, hb, hsz⟩ := hl
  obtain ⟨outs, h, hrest⟩ := ForwardCompute_spec l inputs outputs hw hb hsz hlen hin hout
  exact ⟨(l, outs), h, hrest⟩

/-- Witness of the amended C11: one input of three numbers and two output buffers of two
numbers, on the worked example; only entry 0 of the first output is written. -/
theorem ForwardCompute_unchecked_witness :
    ∃ r, ForwardCompute exampleLayer [[2, 4, 6]] [[7, 8], [5, 5]] = some r ∧
      entry r.2 0 0 = -9 / 10 ∧ entry r.2 0 1 = 8 ∧ entry r.2 1 0 = 5 := by
  obtain ⟨r, h, _, _, hv⟩ := ForwardCompute_unchecked exampleLayer [[2, 4, 6]] [[7, 8], [5, 5]]
    exampleLayer_wellShaped (by simp) (by simp [exampleLayer]) (by simp [exampleLayer])
  refine ⟨r, h, ?_, ?_, ?_⟩
  · rw [hv 0 0]
    norm_num [exampleLayer, entry, Finset.sum_range_succ]
  · rw [hv 0 1]
    norm_num [exampleLayer, entry]
  · rw [hv 1 0]
    norm_num [exampleLayer, entry]

/-- C12, counterexample: on the worked example (two inputs, one output) a batch whose input has
three numbers, whose delta has two, with a `prevDelta` of three numbers, a `gradWeights` of three
and a `gradBiases` of two is not rejected: the call returns and has written all three buffers. -/
theorem BackwardCompute_rejects_counterexample :
    ¬ IsBatch [[(2 : ℚ), 4, 6]] 1 exampleLayer.mInputsCount ∧
      ¬ IsBatch [[(3 : ℚ), 1]] 1 exampleLayer.mOutputsCount ∧
      BackwardCompute exampleLayer [[2, 4, 6]] [] [[3, 1]] [[9, 9, 9]] [0, 0, 5] [0, 5] =
        some { layer := exampleLayer, prevDeltas := [[3 / 2, -3 / 2, 9]],
               gradWeights := [6, 12, 5], gradBiases := [3, 5] } ∧
      [[(3 / 2 : ℚ), -3 / 2, 9]] ≠ [[9, 9, 9]] ∧ [(6 : ℚ), 12, 5] ≠ [0, 0, 5] ∧
      [(3 : ℚ), 5] ≠ [0, 5] := by
  refine ⟨by simp [IsBatch, exampleLayer], by simp [IsBatch, exampleLayer], ?_, by norm_num,
    by norm_num, by norm_num⟩
  simp [BackwardCompute, backwardSampleStep, backwardInputStep, backwardDeltaStep,
    gradWeightOutputStep, gradWeightSampleStep, gradWeightStep, gradBiasSampleStep, gradBiasStep,
    forLoop_step, forLoop_done, exampleLayer, store, wrap]
  norm_num [List.getElem_cons]

/-- C12, amended: `BackwardCompute` checks no shape.  When `deltas` and `prevDeltas` have at
least `inputs.size()` entries, the first `inputs.size()` inputs and `prevDeltas` have at least
`InputsCount` numbers, the first `inputs.size()` deltas at least `OutputsCount`, `gradWeights`
at least `OutputsCount * InputsCount` and `gradBiases` at least `OutputsCount`, the call returns
and has run its three passes on the leading entries, leaving every other entry. -/
theorem BackwardCompute_unchecked (l : XFullyConnectedLayer float_t)
    (inputs outputs deltas prevDeltas : List (fvector_t float_t))
    (gradWeights gradBiases : fvector_t float_t)
    (hl : l.WellShaped)
    (hdl : inputs.length ≤ deltas.length) (hpl : inputs.length ≤ prevDeltas.length)
    (hin : ∀ b, b < inputs.length → l.mInputsCount ≤ (inputs.getD b []).length)
    (hd : ∀ b, b < inputs.length → l.mOutputsCount ≤ (deltas.getD b []).length)
    (hp : ∀ b, b < inputs.length → l.mInputsCount ≤ (prevDeltas.getD b []).length)
    (hgw : l.mOutputsCount * l.mInputsCount ≤ gradWeights.length)
    (hgsz : gradWeights.length < 2 ^ 64)
    (hgb : l.mOutputsCount ≤ gradBiases.length) :
    ∃ r, BackwardCompute l inputs outputs deltas prevDeltas gradWeights gradBiases = some r ∧
      (∀ b i, entry r.prevDeltas b i = if b < inputs.length ∧ i < l.mInputsCount then
          ∑ o in Finset.range l.mOutputsCount,
            entry deltas b o * l.mWeights.getD (o * l.mInputsCount + i) 0
        else entry prevDeltas b i) ∧
      (∀ k, r.gradWeights.getD k 0 = gradWeights.getD k 0 +
        if k < l.mOutputsCount * l.mInputsCount then
          ∑ b in Finset.range inputs.length,
            entry deltas b (k / l.mInputsCount) * entry inputs b (k % l.mInputsCount)
        else 0) ∧
      (∀ k, r.gradBiases.getD k 0 = gradBiases.getD k 0 +
        if k < l.mOutputsCount then ∑ b in Finset.range inputs.length, entry deltas b k
        else 0) := by
  obtain ⟨hw, _, hsz⟩ := hl
  obtain ⟨r, h, _, ⟨_, _, h1⟩, ⟨_, h2⟩, ⟨_, h3⟩⟩ := BackwardCompute_spec l inputs outputs deltas
    prevDeltas gradWeights gradBiases hw hsz hdl hpl hin hd hp hgw hgsz hgb
  exact ⟨r, h, h1, h2, h3⟩

/-- Witness of the amended C12: the batch of the counterexample; the entries past the layer
counts keep 9, 5 and 5. -/
theorem BackwardCompute_unchecked_witness :
    ∃ r, BackwardCompute exampleLayer [[2, 4, 6]] [] [[3, 1]] [[9, 9, 9]] [0, 0, 5] [0, 5] =
        some r ∧
      entry r.prevDeltas 0 2 = 9 ∧ r.gradWeights.getD 2 0 = 5 ∧ r.gradBiases.getD 1 0 = 5 ∧
      r.gradBiases.getD 0 0 = 3 := by
  obtain ⟨r, h, h1, h2, h3⟩ := BackwardCompute_unchecked exampleLayer [[2, 4, 6]] []
    [[3, 1]] [[9, 9, 9]] [0, 0, 5] [0, 5] exampleLayer_wellShaped (by simp) (by simp)
    (by simp [exampleLayer]) (by simp [exampleLayer]) (by simp [exampleLayer])
    (by simp [exampleLayer]) (by simp) (by simp [exampleLayer])
  refine ⟨r, h, ?_, ?_, ?_, ?_⟩
  · rw [h1 0 2]
    norm_num [exampleLayer, entry]
  · rw [h2 2]
    norm_num [exampleLayer]
  · rw [h3 1]
    norm_num [exampleLayer]
  · rw [h3 0]
    norm_num [exampleLayer, entry, Finset.sum_range_succ]

/-- C17: for two well shaped batches of any sizes that have the same input at sample `b`,
`ForwardCompute` leaves the same `output[b]`; for two that have the same delta at sample `b`,
`BackwardCompute` leaves the same `prevDelta[b]`. -/
theorem samples_independent (l : XFullyConnectedLayer float_t)
    (inputs1 outputs1 inputs2 outputs2 : List (fvector_t float_t)) (B1 B2 b : Nat)
    (hl : l.WellShaped)
    (hin1 : IsBatch inputs1 B1 l.mInputsCount) (hin2 : IsBatch inputs2 B2 l.mInputsCount)
    (hb1 : b < B1) (hb2 : b < B2) :
    (IsBatch outputs1 B1 l.mOutputsCount → IsBatch outputs2 B2 l.mOutputsCount →
      inputs1.getD b [] = inputs2.getD b [] →
      ∃ r1 r2, ForwardCompute l inputs1 outputs1 = some r1 ∧
        ForwardCompute l inputs2 outputs2 = some r2 ∧ r1.2.getD b [] = r2.2.getD b []) ∧
    (∀ (deltas1 prevDeltas1 deltas2 prevDeltas2 : List (fvector_t float_t))
      (gradWeights1 gradBiases1 gradWeights2 gradBiases2 : fvector_t float_t),
      IsBatch deltas1 B1 l.mOutputsCount → IsBatch prevDeltas1 B1 l.mInputsCount →
      IsBatch deltas2 B2 l.mOutputsCount → IsBatch prevDeltas2 B2 l.mInputsCount →
      gradWeights1.length = l.mOutputsCount * l.mInputsCount →
      gradBiases1.length = l.mOutputsCount →
      gradWeights2.length = l.mOutputsCount * l.mInputsCount →
      gradBiases2.length = l.mOutputsCount →
      deltas1.getD b [] = deltas2.getD b [] →
      ∃ r1 r2,
        BackwardCompute l inputs1 outputs1 deltas1 prevDeltas1 gradWeights1 gradBiases1 =
          some r1 ∧
        BackwardCompute l inputs2 outputs2 deltas2 prevDeltas2 gradWeights2 gradBiases2 =
          some r2 ∧
        r1.prevDeltas.getD b [] = r2.prevDeltas.getD b []) := by
  constructor
  · intro ho1 ho2 he
    obtain ⟨hw, hb, hsz⟩ := hl
    obtain ⟨o1, e1, _, l1, v1⟩ := ForwardCompute_spec l inputs1 outputs1 hw hb hsz
      (by rw [hin1.1, ho1.1])
      (fun k hk => le_of_eq (hin1.getD_length k (by rw [← hin1.1]; exact hk)).symm)
      (fun k hk => le_of_eq (ho1.getD_length k (by rw [← hin1.1]; exact hk)).symm)
    obtain ⟨o2, e2, _, l2, v2⟩ := ForwardCompute_spec l inputs2 outputs2 hw hb hsz
      (by rw [hin2.1, ho2.1])
      (fun k hk => le_of_eq (hin2.getD_length k (by rw [← hin2.1]; exact hk)).symm)
      (fun k hk => le_of_eq (ho2.getD_length k (by rw [← hin2.1]; exact hk)).symm)
    refine ⟨(l, o1), (l, o2), e1, e2, ?_⟩
    have hlen1 : (o1.getD b []).length = l.mOutputsCount := by
      rw [l1 b]; exact ho1.getD_length b hb1
    have hlen2 : (o2.getD b []).length = l.mOutputsCount := by
      rw [l2 b]; exact ho2.getD_length b hb2
    apply ext_getD _ _ (by rw [hlen1, hlen2])
    intro o ho
    have h1 := v1 b o
    have h2 := v2 b o
    rw [if_pos ⟨by rw [hin1.1]; exact hb1, by rw [← hlen1]; exact ho⟩] at h1
    rw [if_pos ⟨by rw [hin2.1]; exact hb2, by rw [← hlen1]; exact ho⟩] at h2
    simp only [entry] at h1 h2
    rw [h1, h2, he]
  · intro deltas1 prevDeltas1 deltas2 prevDeltas2 gw1 gb1 gw2 gb2 hd1 hp1 hd2 hp2 hg1 hc1 hg2 hc2
      he
    obtain ⟨r1, e1, _, ⟨_, l1, v1⟩, _, _⟩ := BackwardCompute_shaped l inputs1 outputs1 deltas1
      prevDeltas1 gw1 gb1 B1 hl hin1 hd1 hp1 hg1 hc1
    obtain ⟨r2, e2, _, ⟨_, l2, v2⟩, _, _⟩ := BackwardCompute_shaped l inputs2 outputs2 deltas2
      prevDeltas2 gw2 gb2 B2 hl hin2 hd2 hp2 hg2 hc2
    refine ⟨r1, r2, e1, e2, ?_⟩
    have hlen1 : (r1.prevDeltas.getD b []).length = l.mInputsCount := by
      rw [l1 b]; exact hp1.getD_length b hb1
    have hlen2 : (r2.prevDeltas.getD b []).length = l.mInputsCount := by
      rw [l2 b]; exact hp2.getD_length b hb2
    apply ext_getD _ _ (by rw [hlen1, hlen2])
    intro i hi
    have h1 := v1 b i
    have h2 := v2 b i
    rw [if_pos ⟨by rw [hin1.1]; exact hb1, by rw [← hlen1]; exact hi⟩] at h1
    rw [if_pos ⟨by rw [hin2.1]; exact hb2, by rw [← hlen1]; exact hi⟩] at h2
    simp only [entry] at h1 h2
    rw [h1, h2, he]

/-- Witness of C17: the sample (2, 4) alone and as second sample of a batch of two, on the
worked example; its output vector is the same. -/
theorem samples_independent_witness :
    ∃ r1 r2, ForwardCompute exampleLayer [[1, 1], [2, 4]] [[7], [7]] = some r1 ∧
      ForwardCompute exampleLayer [[5, 5], [2, 4], [6, 6]] [[8], [8], [8]] = some r2 ∧
      r1.2.getD 1 [] = r2.2.getD 1 [] :=
  (samples_independent exampleLayer [[1, 1], [2, 4]] [[7], [7]] [[5, 5], [2, 4], [6, 6]]
    [[8], [8], [8]] 2 3 1 exampleLayer_wellShaped (by simp [IsBatch, exampleLayer])
    (by simp [IsBatch, exampleLayer]) (by norm_num) (by norm_num)).1
    (by simp [IsBatch, exampleLayer]) (by simp [IsBatch, exampleLayer]) rfl

theorem forwardInput_prefix (l : XFullyConnectedLayer float_t) (input : fvector_t float_t)
    (w0 n : Nat) (hin : n ≤ input.length) (hw : w0 + n ≤ l.mWeights.length)
    (hsz : l.mWeights.length < 2 ^ 64) :
    ∃ st, forLoop n (forwardInputStep l input) 0 (0, w0) = some st ∧ st.2 = w0 + n := by
  refine forLoop_inv n (forwardInputStep l input) (fun j st => st.2 = w0 + j) (0, w0) rfl ?_
  rintro j ⟨sum, w⟩ hj hst
  simp only at hst
  subst hst
  refine ⟨(sum + input.getD j 0 * l.mWeights.getD (w0 + j) 0, w0 + j + 1), ?_, rfl⟩
  simp only [forwardInputStep]
  rw [getElem?_eq_getD input j 0 (by omega), getElem?_eq_getD l.mWeights (w0 + j) 0 (by omega)]
  simp only [Option.bind_eq_bind, Option.some_bind, Option.pure_def]
  rw [wrap_eq _ (by omega)]

theorem forwardOutput_prefix (l : XFullyConnectedLayer float_t) (input output : fvector_t float_t)
    (n : Nat) (hn : n ≤ l.mOutputsCount)
    (hin : l.mInputsCount ≤ input.length) (hout : l.mOutputsCount ≤ output.length)
    (hw : l.mWeights.length = l.mOutputsCount * l.mInputsCount)
    (hb : l.mBiases.length = l.mOutputsCount) (hsz : l.mWeights.length < 2 ^ 64) :
    ∃ st, forLoop n (forwardOutputStep l input) 0 (output, 0) = some st ∧
      st.2 = n * l.mInputsCount := by
  obtain ⟨st, h, hinv⟩ := forLoop_inv n (forwardOutputStep l input)
    (fun j st => st.2 = j * l.mInputsCount ∧ st.1.length = output.length) (output, 0)
    (by simp) (by
      rintro j ⟨out, w⟩ hj ⟨h1, h2⟩
      simp only at h1 h2
      subst h1
      exact ⟨_, forwardOutputStep_eq l input out j (by omega) hin (by omega) hw hb hsz, rfl,
        by simpa using h2⟩)
  exact ⟨st, h, hinv.1⟩

theorem backwardDelta_prefix (l : XFullyConnectedLayer float_t) (delta : fvector_t float_t)
    (i n : Nat) (hi : i < l.mInputsCount) (hn : n < l.mOutputsCount)
    (hd : l.mOutputsCount ≤ delta.length)
    (hw : l.mWeights.length = l.mOutputsCount * l.mInputsCount)
    (hsz : l.mWeights.length < 2 ^ 64) :
    ∃ st, forLoop n (backwardDeltaStep l delta) 0 (0, i) = some st ∧
      st.2 = n * l.mInputsCount + i := by
  refine forLoop_inv n (backwardDeltaStep l delta) (fun j st => st.2 = j * l.mInputsCount + i)
    (0, i) (by simp) ?_
  rintro j ⟨sum, w⟩ hj hst
  simp only at hst
  subst hst
  have hle : (j + 1 + 1) * l.mInputsCount ≤ l.mOutputsCount * l.mInputsCount :=
    Nat.mul_le_mul_right _ (by omega)
  have hex : (j + 1 + 1) * l.mInputsCount = j * l.mInputsCount + l.mInputsCount + l.mInputsCount := by
    ring
  have hex1 : (j + 1) * l.mInputsCount = j * l.mInputsCount + l.mInputsCount := by ring
  refine ⟨(sum + delta.getD j 0 * l.mWeights.getD (j * l.mInputsCount + i) 0,
    (j + 1) * l.mInputsCount + i), ?_, rfl⟩
  simp only [backwardDeltaStep]
  rw [getElem?_eq_getD delta j 0 (by omega),
    getElem?_eq_getD l.mWeights (j * l.mInputsCount + i) 0 (by omega)]
  simp only [Option.bind_eq_bind, Option.some_bind, Option.pure_def]
  rw [wrap_eq _ (by omega)]
  congr 2
  omega

/-- C18: under the shape precondition no access of `ForwardCompute` or `BackwardCompute` is out
of range (both return); the running `weightIndex` of `ForwardCompute` at the access of
iteration `(otputIndex, inputIndex)` and the strided `weightIndex` of pass 1 of
`BackwardCompute` at the access of iteration `(inputIndex, otputIndex)` are
`otputIndex * InputsCount + inputIndex`, below `OutputsCount * InputsCount`. -/
theorem index_safety (l : XFullyConnectedLayer float_t)
    (inputs outputs deltas prevDeltas : List (fvector_t float_t))
    (gradWeights gradBiases : fvector_t float_t)
    (hl : l.WellShaped)
    (hgw : gradWeights.length = l.mOutputsCount * l.mInputsCount)
    (hgb : gradBiases.length = l.mOutputsCount)
    (hin : ∀ v ∈ inputs, v.length = l.mInputsCount)
    (hp : ∀ v ∈ prevDeltas, v.length = l.mInputsCount)
    (hout : ∀ v ∈ outputs, v.length = l.mOutputsCount)
    (hd : ∀ v ∈ deltas, v.length = l.mOutputsCount)
    (hol : inputs.length ≤ outputs.length) (hdl : inputs.length ≤ deltas.length)
    (hpl : inputs.length ≤ prevDeltas.length) :
    (ForwardCompute l inputs outputs).isSome ∧
    (BackwardCompute l inputs outputs deltas prevDeltas gradWeights gradBiases).isSome ∧
    (∀ input ∈ inputs, ∀ output ∈ outputs, ∀ o i, o < l.mOutputsCount → i < l.mInputsCount →
      ∃ st st2, forLoop o (forwardOutputStep l input) 0 (output, 0) = some st ∧
        forLoop i (forwardInputStep l input) 0 (0, st.2) = some st2 ∧
        st2.2 = o * l.mInputsCount + i ∧ st2.2 < l.mOutputsCount * l.mInputsCount) ∧
    (∀ delta ∈ deltas, ∀ o i, o < l.mOutputsCount → i < l.mInputsCount →
      ∃ st, forLoop o (backwardDeltaStep l delta) 0 (0, i) = some st ∧
        st.2 = o * l.mInputsCount + i ∧ st.2 < l.mOutputsCount * l.mInputsCount) := by
  obtain ⟨hw, hb, hsz⟩ := hl
  have len : ∀ (m : List (fvector_t float_t)) (n : Nat), (∀ v ∈ m, v.length = n) →
      inputs.length ≤ m.length → ∀ b, b < inputs.length → n ≤ (m.getD b []).length :=
    fun m n h hle b hb => le_of_eq (getD_length_of_mem m n h b (by omega)).symm
  obtain ⟨outs, hf, _⟩ := ForwardCompute_spec l inputs outputs hw hb hsz hol
    (len inputs _ hin (le_refl _)) (len outputs _ hout hol)
  obtain ⟨r, hr, _⟩ := BackwardCompute_spec l inputs outputs deltas prevDeltas gradWeights
    gradBiases hw hsz hdl hpl (len inputs _ hin (le_refl _)) (len deltas _ hd hdl)
    (len prevDeltas _ hp hpl) (le_of_eq hgw.symm) (by rw [hgw, ← hw]; exact hsz)
    (le_of_eq hgb.symm)
  refine ⟨by rw [hf]; rfl, by rw [hr]; rfl, ?_, ?_⟩
  · intro input hi output ho o i hlo hli
    obtain ⟨st, h1, h2⟩ := forwardOutput_prefix l input output o (le_of_lt hlo)
      (le_of_eq (hin input hi).symm) (le_of_eq (hout output ho).symm) hw hb hsz
    have hlt := index_lt _ _ o i hlo hli
    obtain ⟨st2, h3, h4⟩ := forwardInput_prefix l input st.2 i
      (by rw [hin input hi]; exact le_of_lt hli) (by rw [h2, hw]; omega) hsz
    exact ⟨st, st2, h1, h3, by rw [h4, h2], by rw [h4, h2]; exact hlt⟩
  · intro delta hdm o i hlo hli
    obtain ⟨st, h1, h2⟩ := backwardDelta_prefix l delta i o hli hlo
      (le_of_eq (hd delta hdm).symm) hw hsz
    exact ⟨st, h1, h2, by rw [h2]; exact index_lt _ _ o i hlo hli⟩

/-- Witness of C18: the worked example with one sample and a second, unused output buffer. -/
theorem index_safety_witness :
    (ForwardCompute exampleLayer [[2, 4]] [[7], [8]]).isSome ∧
    (BackwardCompute exampleLayer [[2, 4]] [[7], [8]] [[3]] [[9, 9]] [0, 0] [0]).isSome ∧
    (∃ st st2, forLoop 0 (forwardOutputStep exampleLayer [2, 4]) 0 ([7], 0) = some st ∧
        forLoop 1 (forwardInputStep exampleLayer [2, 4]) 0 (0, st.2) = some st2 ∧
        st2.2 = 1 ∧ st2.2 < 2) := by
  obtain ⟨h1, h2, h3, _⟩ := index_safety exampleLayer [[2, 4]] [[7], [8]] [[3]] [[9, 9]]
    [0, 0] [0] exampleLayer_wellShaped (by simp [exampleLayer]) (by simp [exampleLayer])
    (by simp [exampleLayer]) (by simp [exampleLayer]) (by simp [exampleLayer])
    (by simp [exampleLayer]) (by simp) (by simp) (by simp)
  refine ⟨h1, h2, ?_⟩
  obtain ⟨st, st2, e1, e2, e3, e4⟩ := h3 [2, 4] (by simp) [7] (by simp) 0 1
    (by norm_num [exampleLayer]) (by norm_num [exampleLayer])
  exact ⟨st, st2, e1, e2, by simpa [exampleLayer] using e3, by simpa [exampleLayer] using e4⟩

/-- C19: for an input `x` and a delta `d`, with `y` the output of `ForwardCompute` on `x` and
`p` the `prevDelta` of `BackwardCompute` on `(x, d)`,
`Σ_o d[o] * (y[o] - bias[o]) = Σ_i p[i] * x[i]`. -/
theorem forward_backward_adjoint (l : XFullyConnectedLayer float_t)
    (x d out prev gradWeights gradBiases : fvector_t float_t)
    (outputs : List (fvector_t float_t))
    (hl : l.WellShaped) (hx : x.length = l.mInputsCount) (hd : d.length = l.mOutputsCount)
    (hout : out.length = l.mOutputsCount) (hprev : prev.length = l.mInputsCount)
    (hgw : gradWeights.length = l.mOutputsCount * l.mInputsCount)
    (hgb : gradBiases.length = l.mOutputsCount) :
    ∃ rf rb, ForwardCompute l [x] [out] = some rf ∧
      BackwardCompute l [x] outputs [d] [prev] gradWeights gradBiases = some rb ∧
      ∑ o in Finset.range l.mOutputsCount, d.getD o 0 * (entry rf.2 0 o - l.mBiases.getD o 0) =
        ∑ i in Finset.range l.mInputsCount, entry rb.prevDeltas 0 i * x.getD i 0 := by
  have one : ∀ (v : fvector_t float_t) (n : Nat), v.length = n → IsBatch [v] 1 n := by
    intro v n hv
    exact ⟨rfl, by simpa using hv⟩
  obtain ⟨hw, hb, hsz⟩ := hl
  obtain ⟨outs, ef, _, _, vf⟩ := ForwardCompute_spec l [x] [out] hw hb hsz (le_refl _)
    (fun k hk => le_of_eq ((one x _ hx).getD_length k (by simpa using hk)).symm)
    (fun k hk => le_of_eq ((one out _ hout).getD_length k (by simpa using hk)).symm)
  obtain ⟨rb, eb, _, ⟨_, _, vb⟩, _, _⟩ := BackwardCompute_shaped l [x] outputs [d] [prev]
    gradWeights gradBiases 1 ⟨hw, hb, hsz⟩ (one x _ hx) (one d _ hd) (one prev _ hprev) hgw hgb
  refine ⟨(l, outs), rb, ef, eb, ?_⟩
  have e1 : ∀ o ∈ Finset.range l.mOutputsCount,
      d.getD o 0 * (entry outs 0 o - l.mBiases.getD o 0) =
        ∑ i in Finset.range l.mInputsCount,
          d.getD o 0 * l.mWeights.getD (o * l.mInputsCount + i) 0 * x.getD i 0 := by
    intro o ho
    rw [vf 0 o, if_pos ⟨by simp, Finset.mem_range.1 ho⟩, add_sub_cancel_left, Finset.mul_sum]
    apply Finset.sum_congr rfl
    intro i _
    simp only [entry, List.getD_cons_zero]
    ring
  have e2 : ∀ i ∈ Finset.range l.mInputsCount,
      entry rb.prevDeltas 0 i * x.getD i 0 =
        ∑ o in Finset.range l.mOutputsCount,
          d.getD o 0 * l.mWeights.getD (o * l.mInputsCount + i) 0 * x.getD i 0 := by
    intro i hi
    rw [vb 0 i, if_pos ⟨by simp, Finset.mem_range.1 hi⟩, Finset.sum_mul]
    apply Finset.sum_congr rfl
    intro o _
    simp only [entry, List.getD_cons_zero]
  show ∑ o in Finset.range l.mOutputsCount, d.getD o 0 * (entry outs 0 o - l.mBiases.getD o 0) = _
  rw [Finset.sum_congr rfl e1, Finset.sum_congr rfl e2, Finset.sum_comm]

/-- Witness of C19: the worked example with the input (2, 4) and the delta 3; both sides
are -3. -/
theorem forward_backward_adjoint_witness :
    ∃ rf rb, ForwardCompute exampleLayer [[2, 4]] [[7]] = some rf ∧
      BackwardCompute exampleLayer [[2, 4]] [] [[3]] [[9, 9]] [0, 0] [0] = some rb ∧
      3 * (entry rf.2 0 0 - 1 / 10) = entry rb.prevDeltas 0 0 * 2 + entry rb.prevDeltas 0 1 * 4 := by
  obtain ⟨rf, rb, h1, h2, h3⟩ := forward_backward_adjoint exampleLayer [2, 4] [3] [7] [9, 9]
    [0, 0] [0] [] exampleLayer_wellShaped (by simp [exampleLayer]) (by simp [exampleLayer])
    (by simp [exampleLayer]) (by simp [exampleLayer]) (by simp [exampleLayer])
    (by simp [exampleLayer])
  refine ⟨rf, rb, h1, h2, ?_⟩
  simpa [exampleLayer, Finset.sum_range_succ] using h3

theorem sum_range_perm (B : Nat) (σ : Equiv.Perm (Fin B)) (f g : Nat → float_t)
    (h : ∀ k : Fin B, g k = f (σ k)) :
    ∑ b in Finset.range B, g b = ∑ b in Finset.range B, f b := by
  rw [Finset.sum_range, Finset.sum_range]
  simp only [h]
  exact Equiv.sum_comp σ (fun k => f k)

/-- C20: when the inputs and the deltas of a well shaped batch are reordered by one
permutation `σ` of the samples, `BackwardCompute` from the same initial accumulators leaves the
same `gradWeights` and `gradBiases`, and its `prevDeltas` are those of the first batch
reordered by `σ`. -/
theorem BackwardCompute_permutation (l : XFullyConnectedLayer float_t)
    (inputs outputs deltas prevDeltas : List (fvector_t float_t))
    (inputs2 outputs2 deltas2 prevDeltas2 : List (fvector_t float_t))
    (gradWeights gradBiases : fvector_t float_t) (B : Nat) (σ : Equiv.Perm (Fin B))
    (hl : l.WellShaped) (hin : IsBatch inputs B l.mInputsCount)
    (hd : IsBatch deltas B l.mOutputsCount) (hp : IsBatch prevDeltas B l.mInputsCount)
    (hin2 : IsBatch inputs2 B l.mInputsCount) (hd2 : IsBatch deltas2 B l.mOutputsCount)
    (hp2 : IsBatch prevDeltas2 B l.mInputsCount)
    (hgw : gradWeights.length = l.mOutputsCount * l.mInputsCount)
    (hgb : gradBiases.length = l.mOutputsCount)
    (hσin : ∀ k : Fin B, inputs2.getD k [] = inputs.getD (σ k) [])
    (hσd : ∀ k : Fin B, deltas2.getD k [] = deltas.getD (σ k) []) :
    ∃ r1 r2,
      BackwardCompute l inputs outputs deltas prevDeltas gradWeights gradBiases = some r1 ∧
      BackwardCompute l inputs2 outputs2 deltas2 prevDeltas2 gradWeights gradBiases = some r2 ∧
      r2.gradWeights = r1.gradWeights ∧ r2.gradBiases = r1.gradBiases ∧
      ∀ k : Fin B, r2.prevDeltas.getD k [] = r1.prevDeltas.getD (σ k) [] := by
  obtain ⟨r1, e1, _, ⟨_, p2, p3⟩, ⟨w1, w2⟩, ⟨b1, b2⟩⟩ := BackwardCompute_shaped l inputs outputs
    deltas prevDeltas gradWeights gradBiases B hl hin hd hp hgw hgb
  obtain ⟨r2, e2, _, ⟨_, q2, q3⟩, ⟨v1, v2⟩, ⟨c1, c2⟩⟩ := BackwardCompute_shaped l inputs2
    outputs2 deltas2 prevDeltas2 gradWeights gradBiases B hl hin2 hd2 hp2 hgw hgb
  refine ⟨r1, r2, e1, e2, ?_, ?_, ?_⟩
  · apply ext_getD _ _ (by rw [v1, w1])
    intro k _
    rw [v2 k, w2 k, hin.1, hin2.1]
    split
    · congr 1
      apply sum_range_perm B σ
      intro j
      simp only [entry, hσin j, hσd j]
    · rfl
  · apply ext_getD _ _ (by rw [c1, b1])
    intro k _
    rw [c2 k, b2 k, hin.1, hin2.1]
    split
    · congr 1
      apply sum_range_perm B σ
      intro j
      simp only [entry, hσd j]
    · rfl
  · intro k
    have hlen1 : (r1.prevDeltas.getD (σ k) []).length = l.mInputsCount := by
      rw [p2]; exact hp.getD_length _ (σ k).2
    have hlen2 : (r2.prevDeltas.getD k []).length = l.mInputsCount := by
      rw [q2]; exact hp2.getD_length _ k.2
    apply ext_getD _ _ (by rw [hlen1, hlen2])
    intro i hi
    have h1 := p3 (σ k) i
    have h2 := q3 k i
    rw [if_pos ⟨by rw [hin.1]; exact (σ k).2, by rw [← hlen2]; exact hi⟩] at h1
    rw [if_pos ⟨by rw [hin2.1]; exact k.2, by rw [← hlen2]; exact hi⟩] at h2
    simp only [entry] at h1 h2
    rw [h1, h2, hσd k]

/-- Witness of C20: the samples ((2, 4), 3) and ((1, 1), 5) on the worked example, and the
same two samples swapped. -/
theorem BackwardCompute_permutation_witness :
    ∃ r1 r2,
      BackwardCompute exampleLayer [[2, 4], [1, 1]] [] [[3], [5]] [[9, 9], [9, 9]] [0, 0] [0] =
        some r1 ∧
      BackwardCompute exampleLayer [[1, 1], [2, 4]] [] [[5], [3]] [[8, 8], [8, 8]] [0, 0] [0] =
        some r2 ∧
      r2.gradWeights = r1.gradWeights ∧ r2.gradBiases = r1.gradBiases ∧
      r2.prevDeltas.getD 0 [] = r1.prevDeltas.getD 1 [] ∧
      r2.prevDeltas.getD 1 [] = r1.prevDeltas.getD 0 [] := by
  obtain ⟨r1, r2, e1, e2, hw, hb, hp⟩ := BackwardCompute_permutation exampleLayer
    [[2, 4], [1, 1]] [] [[3], [5]] [[9, 9], [9, 9]] [[1, 1], [2, 4]] [] [[5], [3]]
    [[8, 8], [8, 8]] [0, 0] [0] 2 (Equiv.swap 0 1) exampleLayer_wellShaped
    (by simp [IsBatch, exampleLayer]) (by simp [IsBatch, exampleLayer])
    (by simp [IsBatch, exampleLayer]) (by simp [IsBatch, exampleLayer])
    (by simp [IsBatch, exampleLayer]) (by simp [IsBatch, exampleLayer])
    (by simp [exampleLayer]) (by simp [exampleLayer])
    (by rw [Fin.forall_fin_two]; simp) (by rw [Fin.forall_fin_two]; simp)
  refine ⟨r1, r2, e1, e2, hw, hb, ?_, ?_⟩
  · simpa using hp 0
  · simpa using hp 1

end Claims

/-! ## Randomize and the constructor -/

section ConstructionClaims

variable {float_t : Type} [Field float_t]

theorem randomizeWeights_length (halfRange : float_t) (RAND_MAX : Nat) (rand : Nat → Nat)
    (k : Nat) (ws : fvector_t float_t) :
    (randomizeWeights halfRange RAND_MAX rand k ws).length = ws.length := by
  induction ws generalizing k with
  | nil => rfl
  | cons w ws ih => simp [randomizeWeights, ih]

/-- The weights after `Randomize` depend on the number of weights only, not on their values. -/
theorem randomizeWeights_congr (halfRange : float_t) (RAND_MAX : Nat) (rand : Nat → Nat)
    (k : Nat) (ws vs : fvector_t float_t) (h : ws.length = vs.length) :
    randomizeWeights halfRange RAND_MAX rand k ws =
      randomizeWeights halfRange RAND_MAX rand k vs := by
  induction ws generalizing k vs with
  | nil =>
    cases vs with
    | nil => rfl
    | cons v vs => simp at h
  | cons w ws ih =>
    cases vs with
    | nil => simp at h
    | cons v vs =>
      simp only [randomizeWeights]
      rw [ih (k + 1) vs (by simpa using h)]

/-- Every weight `Randomize` writes is `( rand( ) / RAND_MAX ) * ( 2 * halfRange ) - halfRange`
for one of the results of `rand( )`. -/
theorem randomizeWeights_mem (halfRange : float_t) (RAND_MAX : Nat) (rand : Nat → Nat)
    (k : Nat) (ws : fvector_t float_t) (w : float_t)
    (h : w ∈ randomizeWeights halfRange RAND_MAX rand k ws) :
    ∃ j, w = (((rand j : Nat) : float_t) / (RAND_MAX : float_t)) * (2 * halfRange) - halfRange := by
  induction ws generalizing k with
  | nil => simp [randomizeWeights] at h
  | cons v ws ih =>
    simp only [randomizeWeights, List.mem_cons] at h
    rcases h with h | h
    · exact ⟨k, h⟩
    · exact ih (k + 1) h

theorem map_zero_eq_replicate (v : fvector_t float_t) :
    v.map (fun _ => (0 : float_t)) = List.replicate v.length 0 := by
  induction v with
  | nil => rfl
  | cons a v ih => simp [List.replicate_succ, ih]

/-- C13: with `inputsCount = 0` or `outputsCount = 0` the construction ends in a
`ConstructionError`, whatever the library parameters are, and produces no layer: the base
class rejects the counts before any vector is made. -/
theorem ctor_rejects_zero (sqrt : float_t → float_t) (RAND_MAX : Nat) (rand : Nat → Nat)
    (max_size : Nat) (storage : Nat → Nat → Bool) (inputsCount outputsCount : Nat)
    (h : inputsCount = 0 ∨ outputsCount = 0) :
    XFullyConnectedLayer.ctor sqrt RAND_MAX rand max_size storage inputsCount outputsCount =
        Except.error Exception.ConstructionError ∧
      ∀ l, XFullyConnectedLayer.ctor sqrt RAND_MAX rand max_size storage inputsCount
        outputsCount ≠ Except.ok l := by
  have key : XFullyConnectedLayer.ctor sqrt RAND_MAX rand max_size storage inputsCount
      outputsCount = Except.error Exception.ConstructionError := by
    simp only [XFullyConnectedLayer.ctor, ITrainableLayer, if_pos h]
    rfl
  refine ⟨key, ?_⟩
  intro l hl
  rw [key] at hl
  cases hl

/-- Witness of C13: no input and `2 ^ 62` outputs, with `max_size( )` equal to `2 ^ 61 - 1`: the
`ConstructionError` comes before the `std::length_error` of `mBiases( outputsCount )`. -/
theorem ctor_rejects_zero_witness :
    ((0 : Nat) = 0 ∨ 2 ^ 62 = 0) ∧
      XFullyConnectedLayer.ctor (fun x : ℚ => x) 32767 (fun _ => 0) (2 ^ 61 - 1)
        (fun _ _ => true) 0 (2 ^ 62) = Except.error Exception.ConstructionError :=
  ⟨Or.inl rfl, (ctor_rejects_zero (fun x : ℚ => x) 32767 (fun _ => 0) (2 ^ 61 - 1)
    (fun _ _ => true) 0 (2 ^ 62) (Or.inl rfl)).1⟩

/-- C14: over the reals, for a layer with `InputsCount > 0` and results of `rand( )` between 0
and `RAND_MAX`, every weight after `Randomize` lies between `-r` and `r`, where
`r = sqrt( 3 / InputsCount )`, and every bias is 0. -/
theorem Randomize_range (l : XFullyConnectedLayer ℝ) (RAND_MAX : Nat) (rand : Nat → Nat)
    (_hI : 0 < l.mInputsCount) (hM : 0 < RAND_MAX) (hr : ∀ k, rand k ≤ RAND_MAX) :
    (∀ w ∈ (Randomize Real.sqrt RAND_MAX rand l).mWeights,
        -Real.sqrt (3 / (l.mInputsCount : ℝ)) ≤ w ∧ w ≤ Real.sqrt (3 / (l.mInputsCount : ℝ))) ∧
      ∀ b ∈ (Randomize Real.sqrt RAND_MAX rand l).mBiases, b = 0 := by
  constructor
  · intro w hw
    obtain ⟨j, rfl⟩ := randomizeWeights_mem _ RAND_MAX rand 0 l.mWeights w hw
    have hr0 : 0 ≤ Real.sqrt (3 / (l.mInputsCount : ℝ)) := Real.sqrt_nonneg _
    have hMpos : (0 : ℝ) < (RAND_MAX : ℝ) := by exact_mod_cast hM
    have ht0 : 0 ≤ ((rand j : Nat) : ℝ) / (RAND_MAX : ℝ) :=
      div_nonneg (Nat.cast_nonneg _) hMpos.le
    have ht1 : ((rand j : Nat) : ℝ) / (RAND_MAX : ℝ) ≤ 1 := by
      rw [div_le_one hMpos]
      exact_mod_cast hr j
    constructor
    · nlinarith [mul_nonneg ht0 hr0]
    · nlinarith [mul_nonneg (sub_nonneg.2 ht1) hr0]
  · intro b hb
    simp only [Randomize, List.mem_map] at hb
    obtain ⟨_, _, h⟩ := hb
    exact h.symm

/-- Witness of C14: three inputs, so `r = sqrt( 3 / 3 )`, with `RAND_MAX = 2` and every
`rand( )` giving 1. -/
theorem Randomize_range_witness :
    (∀ w ∈ (Randomize Real.sqrt 2 (fun _ => 1)
        { mInputsCount := 3, mOutputsCount := 1, mWeights := [7, 7, 7], mBiases := [5] }).mWeights,
        -Real.sqrt (3 / ((3 : Nat) : ℝ)) ≤ w ∧ w ≤ Real.sqrt (3 / ((3 : Nat) : ℝ))) ∧
      ∀ b ∈ (Randomize Real.sqrt 2 (fun _ => 1)
        { mInputsCount := 3, mOutputsCount := 1, mWeights := [7, 7, 7], mBiases := [5] }).mBiases,
        b = 0 :=
  Randomize_range { mInputsCount := 3, mOutputsCount := 1, mWeights := [7, 7, 7], mBiases := [5] }
    2 (fun _ => 1) (by norm_num) (by norm_num) (fun _ => by norm_num)

/-- C15: two well shaped layers with the same `InputsCount` and `OutputsCount` come out of
`Randomize`, run on the same results of `rand( )`, as the same layer, which is the one
`Randomize` makes of zero filled buffers of these counts. -/
theorem Randomize_overwrites (sqrt : float_t → float_t) (RAND_MAX : Nat) (rand : Nat → Nat)
    (l1 l2 : XFullyConnectedLayer float_t) (h1 : l1.WellShaped) (h2 : l2.WellShaped)
    (hi : l1.mInputsCount = l2.mInputsCount) (ho : l1.mOutputsCount = l2.mOutputsCount) :
    Randomize sqrt RAND_MAX rand l1 = Randomize sqrt RAND_MAX rand l2 ∧
      Randomize sqrt RAND_MAX rand l1 = Randomize sqrt RAND_MAX rand
        { mInputsCount := l1.mInputsCount, mOutputsCount := l1.mOutputsCount,
          mWeights := List.replicate (l1.mOutputsCount * l1.mInputsCount) 0,
          mBiases := List.replicate l1.mOutputsCount 0 } := by
  have key : ∀ a b : XFullyConnectedLayer float_t, a.mInputsCount = b.mInputsCount →
      a.mOutputsCount = b.mOutputsCount → a.mWeights.length = b.mWeights.length →
      a.mBiases.length = b.mBiases.length →
      Randomize sqrt RAND_MAX rand a = Randomize sqrt RAND_MAX rand b := by
    intro a b e1 e2 e3 e4
    simp only [Randomize, map_zero_eq_replicate, e1, e2, e4,
      randomizeWeights_congr _ RAND_MAX rand 0 a.mWeights b.mWeights e3]
  refine ⟨key l1 l2 hi ho (by rw [h1.1, h2.1, hi, ho]) (by rw [h1.2.1, h2.2.1, ho]), ?_⟩
  exact key l1 _ rfl rfl (by simp [h1.1]) (by simp [h1.2.1])

/-- Witness of C15: the worked example and a layer of the same counts holding other numbers,
with `RAND_MAX = 4` and `rand( )` giving 0, 1, 2, ... -/
theorem Randomize_overwrites_witness :
    Randomize (fun x : ℚ => x) 4 (fun k => k) exampleLayer =
      Randomize (fun x : ℚ => x) 4 (fun k => k)
        { mInputsCount := 2, mOutputsCount := 1, mWeights := [8, 9], mBiases := [7] } :=
  (Randomize_overwrites (fun x : ℚ => x) 4 (fun k => k) exampleLayer
    { mInputsCount := 2, mOutputsCount := 1, mWeights := [8, 9], mBiases := [7] }
    exampleLayer_wellShaped (by simp [XFullyConnectedLayer.WellShaped]) rfl rfl).1

/-- `Randomize` keeps the counts and the sizes of both buffers. -/
theorem Randomize_sizes (sqrt : float_t → float_t) (RAND_MAX : Nat) (rand : Nat → Nat)
    (l : XFullyConnectedLayer float_t) :
    (Randomize sqrt RAND_MAX rand l).mInputsCount = l.mInputsCount ∧
      (Randomize sqrt RAND_MAX rand l).mOutputsCount = l.mOutputsCount ∧
      (Randomize sqrt RAND_MAX rand l).mWeights.length = l.mWeights.length ∧
      (Randomize sqrt RAND_MAX rand l).mBiases.length = l.mBiases.length := by
  simp [Randomize, randomizeWeights_length]

theorem vectorOfSize_ok (max_size : Nat) (storage : Nat → Bool) (n : Nat)
    (hm : n ≤ max_size) (hs : storage n = true) :
    (vectorOfSize max_size storage n : Except Exception (fvector_t float_t)) =
      Except.ok (List.replicate n 0) := by
  simp [vectorOfSize, Nat.not_lt.2 hm, hs]

theorem ITrainableLayer_ok (inputsCount outputsCount : Nat) (hi : 0 < inputsCount)
    (ho : 0 < outputsCount) :
    ITrainableLayer inputsCount outputsCount = Except.ok (inputsCount, outputsCount) := by
  simp [ITrainableLayer, Nat.pos_iff_ne_zero.1 hi, Nat.pos_iff_ne_zero.1 ho]

/-- The constructor with positive counts whose two vectors can be made: the layer it
produces. -/
theorem ctor_ok (sqrt : float_t → float_t) (RAND_MAX : Nat) (rand : Nat → Nat)
    (max_size : Nat) (storage : Nat → Nat → Bool) (inputsCount outputsCount : Nat)
    (hi : 0 < inputsCount) (ho : 0 < outputsCount)
    (hmw : wrap (inputsCount * outputsCount) ≤ max_size)
    (hsw : storage 0 (wrap (inputsCount * outputsCount)) = true)
    (hmb : outputsCount ≤ max_size) (hsb : storage 1 outputsCount = true) :
    XFullyConnectedLayer.ctor sqrt RAND_MAX rand max_size storage inputsCount outputsCount =
      Except.ok (Randomize sqrt RAND_MAX rand
        { mInputsCount := inputsCount, mOutputsCount := outputsCount,
          mWeights := List.replicate (wrap (inputsCount * outputsCount)) 0,
          mBiases := List.replicate outputsCount 0 }) := by
  simp only [XFullyConnectedLayer.ctor, ITrainableLayer_ok _ _ hi ho,
    vectorOfSize_ok max_size (storage 0) _ hmw hsw, vectorOfSize_ok max_size (storage 1) _ hmb hsb]
  rfl

/-- The constructor with positive counts whose product is more than `max_size( )` ends in
`std::length_error`. -/
theorem ctor_length_error (sqrt : float_t → float_t) (RAND_MAX : Nat) (rand : Nat → Nat)
    (max_size : Nat) (storage : Nat → Nat → Bool) (inputsCount outputsCount : Nat)
    (hi : 0 < inputsCount) (ho : 0 < outputsCount)
    (hmw : max_size < wrap (inputsCount * outputsCount)) :
    XFullyConnectedLayer.ctor sqrt RAND_MAX rand max_size storage inputsCount outputsCount =
      Except.error Exception.length_error := by
  simp only [XFullyConnectedLayer.ctor, ITrainableLayer_ok _ _ hi ho, vectorOfSize, if_pos hmw]
  rfl

/-- When the counts are positive, their product is a `size_t` value and both vectors can be
made, the constructor makes a well shaped layer: `inputsCount * outputsCount` weights and
`outputsCount` biases. -/
theorem ctor_wellShaped (sqrt : float_t → float_t) (RAND_MAX : Nat) (rand : Nat → Nat)
    (max_size : Nat) (storage : Nat → Nat → Bool) (inputsCount outputsCount : Nat)
    (hi : 0 < inputsCount) (ho : 0 < outputsCount)
    (h : inputsCount * outputsCount < 2 ^ 64)
    (hmw : inputsCount * outputsCount ≤ max_size)
    (hsw : storage 0 (inputsCount * outputsCount) = true)
    (hmb : outputsCount ≤ max_size) (hsb : storage 1 outputsCount = true) :
    ∃ l, XFullyConnectedLayer.ctor sqrt RAND_MAX rand max_size storage inputsCount
        outputsCount = Except.ok l ∧
      l.WellShaped ∧ l.mInputsCount = inputsCount ∧ l.mOutputsCount = outputsCount ∧
      l.mWeights.length = inputsCount * outputsCount ∧ l.mBiases.length = outputsCount := by
  have hwr : wrap (inputsCount * outputsCount) = inputsCount * outputsCount := wrap_eq _ h
  refine ⟨_, ctor_ok sqrt RAND_MAX rand max_size storage inputsCount outputsCount hi ho
    (by rw [hwr]; exact hmw) (by rw [hwr]; exact hsw) hmb hsb, ?_⟩
  simp only [XFullyConnectedLayer.WellShaped, Randomize, randomizeWeights_length,
    List.length_replicate, List.length_map, hwr]
  exact ⟨⟨mul_comm _ _, trivial, h⟩, trivial, trivial, trivial, trivial⟩

/-- C16, the code at the failing input `inputsCount = 2 ^ 63`, `outputsCount = 2`, on a library
that makes vectors of 0 and of 2 elements: the construction succeeds, the `size_t` product
`inputsCount * outputsCount` is 0, so the layer has these counts and no weight at all, not the
`2 ^ 64` the shape invariant asks for. -/
theorem ctor_overflow (sqrt : float_t → float_t) (RAND_MAX : Nat) (rand : Nat → Nat)
    (max_size : Nat) (storage : Nat → Nat → Bool)
    (hm : 2 ≤ max_size) (hs0 : storage 0 0 = true) (hs2 : storage 1 2 = true) :
    ∃ l, XFullyConnectedLayer.ctor sqrt RAND_MAX rand max_size storage (2 ^ 63) 2 =
        Except.ok l ∧
      l.mInputsCount = 2 ^ 63 ∧ l.mOutputsCount = 2 ∧ l.mWeights = [] ∧
      l.mWeights.length ≠ 2 ^ 63 * 2 ∧ ¬ l.WellShaped := by
  have hz : wrap (2 ^ 63 * 2) = 0 := by norm_num [wrap]
  refine ⟨_, ctor_ok sqrt RAND_MAX rand max_size storage (2 ^ 63) 2 (by norm_num) (by norm_num)
    (by rw [hz]; omega) (by rw [hz]; exact hs0) hm hs2, ?_⟩
  simp only [XFullyConnectedLayer.WellShaped, Randomize, hz, List.replicate_zero,
    randomizeWeights, List.length_nil]
  norm_num

/-- Witness of C16: `max_size( )` equal to `2 ^ 61 - 1` and storage for up to 1000 elements. -/
theorem ctor_overflow_witness :
    ∃ l, XFullyConnectedLayer.ctor (fun x : ℚ => x) 32767 (fun _ => 0) (2 ^ 61 - 1)
        (fun _ n => decide (n ≤ 1000)) (2 ^ 63) 2 = Except.ok l ∧
      l.mInputsCount = 2 ^ 63 ∧ l.mOutputsCount = 2 ∧ l.mWeights = [] ∧
      l.mWeights.length ≠ 2 ^ 63 * 2 ∧ ¬ l.WellShaped :=
  ctor_overflow (fun x : ℚ => x) 32767 (fun _ => 0) (2 ^ 61 - 1) (fun _ n => decide (n ≤ 1000))
    (by norm_num) (by simp) (by simp)

end ConstructionClaims

end ANNT.Neuro
